import Mathlib

/-!
Shallow embedding of the subcomponent-editing engine of the Coolapp
repository (src/unnamed/part_000, the deployed editor-subcomponents module,
together with the divergent weld functions of src/editor-subcomponents.js).

Modelling conventions:
* JS doubles are idealized as rational numbers; every floating-point
  operation used by the engine (add, sub, mul, div, Math.round, squared
  length comparison) is exact on the inputs we reason about.
* A THREE.Vector3 is a record of three rationals; a Float32Array position
  buffer is a list of such records, indexed by vertex id.
* The JS engine compares Euclidean distances only against each other and
  against nonnegative radii, so we carry squared distances (the square is
  strictly monotone on nonnegative reals, hence every comparison in the
  source is preserved verbatim).
* String keys such as "qx_qy_qz", "g:...", "i:idx", "v:...", "e:1,4" are
  injective encodings of the underlying data (separator-joined decimal
  integers); we model them by that data itself (an integer triple, a
  constructor-tagged key, a sorted index list).
* The per-mesh vertex-group cache of the source is invalidated by every
  mutation the engine performs (refreshHelpers clears it), so getGroups
  always agrees with buildVertexGroups on the current positions; we model
  the cache by that semantic identity.
-/

namespace Coolapp

/-- A 3D vector with rational coordinates (THREE.Vector3 idealized). -/
structure Vec3 where
  x : ℚ
  y : ℚ
  z : ℚ
deriving DecidableEq, Repr

namespace Vec3

/-- Vector addition (THREE.Vector3.add). -/
def add (a b : Vec3) : Vec3 := ⟨a.x + b.x, a.y + b.y, a.z + b.z⟩

/-- Vector subtraction (THREE.Vector3.sub). -/
def sub (a b : Vec3) : Vec3 := ⟨a.x - b.x, a.y - b.y, a.z - b.z⟩

/-- Negation of a vector. -/
def neg (a : Vec3) : Vec3 := ⟨-a.x, -a.y, -a.z⟩

/-- The zero vector; THREE.Vector3(0,0,0), also the result of set(0,0,0). -/
def zero : Vec3 := ⟨0, 0, 0⟩

/-- Scalar multiplication (THREE.Vector3.multiplyScalar). -/
def smul (q : ℚ) (a : Vec3) : Vec3 := ⟨q * a.x, q * a.y, q * a.z⟩

/-- Squared Euclidean length (THREE.Vector3.lengthSq). -/
def lengthSq (a : Vec3) : ℚ := a.x * a.x + a.y * a.y + a.z * a.z

/-- Squared Euclidean distance; the source compares true distances, which
is equivalent to comparing their squares since both sides are nonnegative. -/
def distSq (a b : Vec3) : ℚ := (a.sub b).lengthSq

theorem ext_iff {a b : Vec3} : a = b ↔ a.x = b.x ∧ a.y = b.y ∧ a.z = b.z := by
  cases a; cases b; simp

theorem add_zero_right (a : Vec3) : a.add zero = a := by
  simp [add, zero]

theorem add_assoc (a b c : Vec3) : (a.add b).add c = a.add (b.add c) := by
  simp only [add, Vec3.mk.injEq]; exact ⟨by ring, by ring, by ring⟩

theorem add_comm (a b : Vec3) : a.add b = b.add a := by
  simp only [add, Vec3.mk.injEq]; exact ⟨by ring, by ring, by ring⟩

theorem add_sub_cancel (a d : Vec3) : (a.add d).add d.neg = a := by
  cases a; cases d
  simp only [add, neg, Vec3.mk.injEq]; exact ⟨by ring, by ring, by ring⟩

theorem lengthSq_nonneg (a : Vec3) : 0 ≤ a.lengthSq := by
  have hx := mul_self_nonneg a.x
  have hy := mul_self_nonneg a.y
  have hz := mul_self_nonneg a.z
  simp only [lengthSq]; linarith

end Vec3

/-- Row-major 3x3 matrix (THREE.Matrix3); entry mRC sits in row R, column C. -/
structure Mat3 where
  m11 : ℚ
  m12 : ℚ
  m13 : ℚ
  m21 : ℚ
  m22 : ℚ
  m23 : ℚ
  m31 : ℚ
  m32 : ℚ
  m33 : ℚ
deriving DecidableEq, Repr

/-- Row-major 4x4 matrix (THREE.Matrix4); entry nRC sits in row R, column C.
THREE stores elements column-major but the mathematical matrix is the same. -/
structure Mat4 where
  n11 : ℚ
  n12 : ℚ
  n13 : ℚ
  n14 : ℚ
  n21 : ℚ
  n22 : ℚ
  n23 : ℚ
  n24 : ℚ
  n31 : ℚ
  n32 : ℚ
  n33 : ℚ
  n34 : ℚ
  n41 : ℚ
  n42 : ℚ
  n43 : ℚ
  n44 : ℚ
deriving DecidableEq, Repr

/-- Determinant of a 3x3 matrix given by its nine entries in row order. -/
def det3x3 (a b c d e f g h i : ℚ) : ℚ :=
  a * (e * i - f * h) - b * (d * i - f * g) + c * (d * h - e * g)

namespace Mat4

/-- The 4x4 determinant (expansion along the first row), as computed inside
THREE.Matrix4.invert. -/
def det (M : Mat4) : ℚ :=
  M.n11 * det3x3 M.n22 M.n23 M.n24 M.n32 M.n33 M.n34 M.n42 M.n43 M.n44
  - M.n12 * det3x3 M.n21 M.n23 M.n24 M.n31 M.n33 M.n34 M.n41 M.n43 M.n44
  + M.n13 * det3x3 M.n21 M.n22 M.n24 M.n31 M.n32 M.n34 M.n41 M.n42 M.n44
  - M.n14 * det3x3 M.n21 M.n22 M.n23 M.n31 M.n32 M.n33 M.n41 M.n42 M.n43

/-- The matrix with every entry zero; THREE.Matrix4.invert sets the matrix
to this when the determinant is zero. -/
def zero : Mat4 := ⟨0,0,0,0, 0,0,0,0, 0,0,0,0, 0,0,0,0⟩

/-- THREE.Matrix4.invert: the adjugate-over-determinant inverse, with the
all-zero matrix as result when the determinant vanishes.  Entry (i,j) of the
inverse is the (j,i) cofactor divided by the determinant. -/
def invert (M : Mat4) : Mat4 :=
  let d := M.det
  if d = 0 then zero else
  { n11 :=  det3x3 M.n22 M.n23 M.n24 M.n32 M.n33 M.n34 M.n42 M.n43 M.n44 / d
    n12 := -det3x3 M.n12 M.n13 M.n14 M.n32 M.n33 M.n34 M.n42 M.n43 M.n44 / d
    n13 :=  det3x3 M.n12 M.n13 M.n14 M.n22 M.n23 M.n24 M.n42 M.n43 M.n44 / d
    n14 := -det3x3 M.n12 M.n13 M.n14 M.n22 M.n23 M.n24 M.n32 M.n33 M.n34 / d
    n21 := -det3x3 M.n21 M.n23 M.n24 M.n31 M.n33 M.n34 M.n41 M.n43 M.n44 / d
    n22 :=  det3x3 M.n11 M.n13 M.n14 M.n31 M.n33 M.n34 M.n41 M.n43 M.n44 / d
    n23 := -det3x3 M.n11 M.n13 M.n14 M.n21 M.n23 M.n24 M.n41 M.n43 M.n44 / d
    n24 :=  det3x3 M.n11 M.n13 M.n14 M.n21 M.n23 M.n24 M.n31 M.n33 M.n34 / d
    n31 :=  det3x3 M.n21 M.n22 M.n24 M.n31 M.n32 M.n34 M.n41 M.n42 M.n44 / d
    n32 := -det3x3 M.n11 M.n12 M.n14 M.n31 M.n32 M.n34 M.n41 M.n42 M.n44 / d
    n33 :=  det3x3 M.n11 M.n12 M.n14 M.n21 M.n22 M.n24 M.n41 M.n42 M.n44 / d
    n34 := -det3x3 M.n11 M.n12 M.n14 M.n21 M.n22 M.n24 M.n31 M.n32 M.n34 / d
    n41 := -det3x3 M.n21 M.n22 M.n23 M.n31 M.n32 M.n33 M.n41 M.n42 M.n43 / d
    n42 :=  det3x3 M.n11 M.n12 M.n13 M.n31 M.n32 M.n33 M.n41 M.n42 M.n43 / d
    n43 := -det3x3 M.n11 M.n12 M.n13 M.n21 M.n22 M.n23 M.n41 M.n42 M.n43 / d
    n44 :=  det3x3 M.n11 M.n12 M.n13 M.n21 M.n22 M.n23 M.n31 M.n32 M.n33 / d }

end Mat4

/-- THREE.Matrix3.setFromMatrix4: the upper-left 3x3 block of a 4x4 matrix. -/
def Mat3.setFromMatrix4 (M : Mat4) : Mat3 :=
  ⟨M.n11, M.n12, M.n13, M.n21, M.n22, M.n23, M.n31, M.n32, M.n33⟩

/-- THREE.Vector3.applyMatrix3: matrix-vector product. -/
def applyMatrix3 (m : Mat3) (v : Vec3) : Vec3 :=
  ⟨m.m11 * v.x + m.m12 * v.y + m.m13 * v.z,
   m.m21 * v.x + m.m22 * v.y + m.m23 * v.z,
   m.m31 * v.x + m.m32 * v.y + m.m33 * v.z⟩

/-- THREE.Vector3.applyMatrix4 (point transform, homogeneous coordinate 1,
with the perspective divide omitted because every matrix we apply is affine):
used by Object3D.worldToLocal, which applies the full inverse of matrixWorld. -/
def applyMatrix4 (M : Mat4) (v : Vec3) : Vec3 :=
  ⟨M.n11 * v.x + M.n12 * v.y + M.n13 * v.z + M.n14,
   M.n21 * v.x + M.n22 * v.y + M.n23 * v.z + M.n24,
   M.n31 * v.x + M.n32 * v.y + M.n33 * v.z + M.n34⟩

/-- The 3x3 determinant of a Mat3. -/
def Mat3.det (m : Mat3) : ℚ :=
  det3x3 m.m11 m.m12 m.m13 m.m21 m.m22 m.m23 m.m31 m.m32 m.m33

/-- Mathematical inverse of a 3x3 matrix (adjugate over determinant, zero
matrix when singular).  This is the specification-side "inverse of the
mesh's world orientation-and-scale" of claim C9; it is not part of the
source, which reaches the same values through Matrix4.invert. -/
def Mat3.inv (m : Mat3) : Mat3 :=
  let d := m.det
  if d = 0 then ⟨0,0,0,0,0,0,0,0,0⟩ else
  ⟨ (m.m22 * m.m33 - m.m23 * m.m32) / d,
   -(m.m12 * m.m33 - m.m13 * m.m32) / d,
    (m.m12 * m.m23 - m.m13 * m.m22) / d,
   -(m.m21 * m.m33 - m.m23 * m.m31) / d,
    (m.m11 * m.m33 - m.m13 * m.m31) / d,
   -(m.m11 * m.m23 - m.m13 * m.m21) / d,
    (m.m21 * m.m32 - m.m22 * m.m31) / d,
   -(m.m11 * m.m32 - m.m12 * m.m31) / d,
    (m.m11 * m.m22 - m.m12 * m.m21) / d⟩

/-- A mesh object as the engine sees it: stable id (userData.id, generated
from 1 upward by editor-core), the local-space position buffer
(geometry.attributes.position), and the world transform (matrixWorld). -/
structure Mesh where
  id : Nat
  positions : List Vec3
  matrixWorld : Mat4
deriving DecidableEq, Repr

/-! ## Quantized grouping (GROUPS section of the source) -/

/-- The quantization step: const GROUP_EPS = 1e-4. -/
def GROUP_EPS : ℚ := 1 / 10000

/-- JS Math.round on an exact rational: floor(q + 1/2), rounding half toward
positive infinity, exactly the ECMAScript definition. -/
def jsRound (q : ℚ) : ℤ := ⌊q + 1 / 2⌋

/-- keyForPos(x,y,z): each coordinate is divided by GROUP_EPS and rounded.
The source renders the triple as the string "qx_qy_qz"; underscore-joined
decimal integers encode the triple injectively, so the key is modelled by
the triple itself. -/
def keyForPos (x y z : ℚ) : ℤ × ℤ × ℤ :=
  (jsRound (x / GROUP_EPS), jsRound (y / GROUP_EPS), jsRound (z / GROUP_EPS))

/-- Insertion into a JS Map keyed by group key: if the key is present, push
the index onto its existing bucket (keeping the bucket in place); otherwise
append a fresh bucket at the end (JS Map preserves insertion order). -/
def mapPush (m : List ((ℤ × ℤ × ℤ) × List Nat)) (k : ℤ × ℤ × ℤ) (i : Nat) :
    List ((ℤ × ℤ × ℤ) × List Nat) :=
  match m with
  | [] => [(k, [i])]
  | (k0, l) :: rest =>
      if k0 = k then (k0, l ++ [i]) :: rest else (k0, l) :: mapPush rest k i

/-- JS Map.get on the association list. -/
def mapGet (m : List ((ℤ × ℤ × ℤ) × List Nat)) (k : ℤ × ℤ × ℤ) : Option (List Nat) :=
  match m with
  | [] => none
  | (k0, l) :: rest => if k0 = k then some l else mapGet rest k

/-- buildVertexGroups: one pass over the position buffer, bucketing index i
under keyForPos of its coordinates.  The per-mesh cache of the source
(getGroups) is invalidated by every engine mutation via refreshHelpers, so
it always agrees with this function on the current positions. -/
def buildVertexGroups (positions : List Vec3) : List ((ℤ × ℤ × ℤ) × List Nat) :=
  positions.enum.foldl (fun m p => mapPush m (keyForPos p.2.x p.2.y p.2.z) p.1) []

/-- A vertex-group key: "g:" ++ quantized key in merge mode, "i:" ++ raw
index in explode mode (or when the position attribute is missing). -/
inductive GroupKey where
  | quantized (k : ℤ × ℤ × ℤ)
  | identity (idx : Nat)
deriving DecidableEq, Repr

/-- getGroupForVertexIndex: in explode mode the vertex is its own group;
in merge mode look the vertex's quantized key up in the group map, falling
back to the singleton group if absent (cannot happen for in-range indices). -/
def getGroupForVertexIndex (explode : Bool) (positions : List Vec3) (idx : Nat) :
    GroupKey × List Nat :=
  if explode then (GroupKey.identity idx, [idx])
  else
    let p := positions.getD idx Vec3.zero
    let k := keyForPos p.x p.y p.z
    (GroupKey.quantized k, (mapGet (buildVertexGroups positions) k).getD [idx])

/-! ## Selection state -/

/-- Selection entry kinds: 'v', 'e', 'f'. -/
inductive EKind where
  | v
  | e
  | f
deriving DecidableEq, Repr

/-- A canonical selection key.  The source builds the strings "v:" ++ group
key, "e:" ++ sorted comma-joined pair, "f:" ++ sorted comma-joined triple;
the kind tag and the sorted index list determine those strings injectively. -/
inductive SelKey where
  | vert (g : GroupKey)
  | edge (sig : List Nat)
  | face (sig : List Nat)
deriving DecidableEq, Repr

/-- Insertion of a value into a sorted list of naturals. -/
def insertSorted (x : Nat) : List Nat → List Nat
  | [] => [x]
  | y :: ys => if x ≤ y then x :: y :: ys else y :: insertSorted x ys

/-- The numeric ascending sort indices.slice().sort((a,b) => a-b). -/
def sortNat (l : List Nat) : List Nat := l.foldr insertSorted []

/-- makeSelectionKey(kind, key, indices): for kind 'v' the group key alone;
otherwise the kind with the ascending-sorted index signature (the source
passes the placeholder strings "edge"/"face" as key there; that argument is
ignored for non-vertex kinds). -/
def makeSelectionKey (kind : EKind) (gk : GroupKey) (indices : List Nat) : SelKey :=
  match kind with
  | EKind.v => SelKey.vert gk
  | EKind.e => SelKey.edge (sortNat indices)
  | EKind.f => SelKey.face (sortNat indices)

/-- A selection entry: { kind, key, indices, centroidLocal }. -/
structure Entry where
  kind : EKind
  key : SelKey
  indices : List Nat
  centroidLocal : Vec3
deriving DecidableEq, Repr

/-- The pickability flags: { verts, edges, faces, explode }. -/
structure Flags where
  verts : Bool
  edges : Bool
  faces : Bool
  explode : Bool
deriving DecidableEq, Repr

/-- The cancellation snapshot: { id, positions: Float32Array copy }. -/
structure Baseline where
  id : Nat
  positions : List Vec3
deriving DecidableEq, Repr

/-- The engine state object: flags, selection list, optional baseline, and
the running _accumulatedLocalDelta. -/
structure Engine where
  flags : Flags
  selection : List Entry
  baseline : Option Baseline
  accDelta : Vec3
deriving DecidableEq, Repr

/-- hasSelection(): selection.length > 0. -/
def hasSelection (eng : Engine) : Bool := !eng.selection.isEmpty

/-- centroidLocalFromIndices: arithmetic mean of the positions at the given
indices, with the 1/max(1,length) guard of the source. -/
def centroidLocalFromIndices (positions : List Vec3) (indices : List Nat) : Vec3 :=
  Vec3.smul (1 / ((max 1 indices.length : ℕ) : ℚ))
    (indices.foldl (fun c i => c.add (positions.getD i Vec3.zero)) Vec3.zero)

/-- setBaselineFromCurrent(obj): snapshot the current position buffer. -/
def setBaselineFromCurrent (eng : Engine) (mesh : Mesh) : Engine :=
  { eng with baseline := some ⟨mesh.id, mesh.positions⟩ }

/-- clearSelection(obj): empty the selection and re-capture the baseline. -/
def clearSelection (eng : Engine) (mesh : Mesh) : Engine :=
  { eng with selection := [], baseline := some ⟨mesh.id, mesh.positions⟩ }

/-- cancelToBaseline(obj): overwrite the whole position buffer with the
baseline snapshot when its id matches; the engine state — in particular
_accumulatedLocalDelta — is left untouched by the source. -/
def cancelToBaseline (eng : Engine) (mesh : Mesh) : Mesh :=
  match eng.baseline with
  | none => mesh
  | some b => if b.id = mesh.id then { mesh with positions := b.positions } else mesh

/-! ## Toggle pick -/

/-- The baseline re-capture at the top of togglePick: when no baseline is
held for this mesh, snapshot the current positions. -/
def refreshBaselineForPick (eng : Engine) (mesh : Mesh) : Engine :=
  match eng.baseline with
  | some b => if b.id = mesh.id then eng else setBaselineFromCurrent eng mesh
  | none => setBaselineFromCurrent eng mesh

/-- The toggle core shared by the three pick branches: findIndex on the
canonical key, then splice the first match out, or push the new entry. -/
def toggleEntryByKey (sel : List Entry) (ent : Entry) : List Entry :=
  if sel.any (fun s => decide (s.key = ent.key)) then
    sel.eraseP (fun s => decide (s.key = ent.key))
  else sel ++ [ent]

/-- The vertex branch of togglePick, given the vertex index produced by the
raycast hit (hit-testing is an external collaborator). -/
def togglePickVertex (eng : Engine) (mesh : Mesh) (idx : Nat) : Engine :=
  let eng1 := refreshBaselineForPick eng mesh
  if eng1.flags.verts then
    let grp := getGroupForVertexIndex eng1.flags.explode mesh.positions idx
    let centroid := centroidLocalFromIndices mesh.positions grp.2
    let selKey := makeSelectionKey EKind.v grp.1 grp.2
    { eng1 with selection := toggleEntryByKey eng1.selection ⟨EKind.v, selKey, grp.2, centroid⟩ }
  else eng1

/-- The edge branch of togglePick, given the approximate nearest index pair
computed from the hit point. -/
def togglePickEdge (eng : Engine) (mesh : Mesh) (pair : Nat × Nat) : Engine :=
  let eng1 := refreshBaselineForPick eng mesh
  if eng1.flags.edges then
    let inds := [pair.1, pair.2]
    let centroid := centroidLocalFromIndices mesh.positions inds
    let selKey := makeSelectionKey EKind.e (GroupKey.identity 0) inds
    { eng1 with selection := toggleEntryByKey eng1.selection ⟨EKind.e, selKey, inds, centroid⟩ }
  else eng1

/-- The face branch of togglePick, given the hit triangle (f.a, f.b, f.c). -/
def togglePickFace (eng : Engine) (mesh : Mesh) (tri : Nat × Nat × Nat) : Engine :=
  let eng1 := refreshBaselineForPick eng mesh
  if eng1.flags.faces then
    let inds := [tri.1, tri.2.1, tri.2.2]
    let centroid := centroidLocalFromIndices mesh.positions inds
    let selKey := makeSelectionKey EKind.f (GroupKey.identity 0) inds
    { eng1 with selection := toggleEntryByKey eng1.selection ⟨EKind.f, selKey, inds, centroid⟩ }
  else eng1

/-! ## Movement application -/

/-- One JS Set.add step: append the element unless already present. -/
def jsSetAdd (acc : List Nat) (i : Nat) : List Nat :=
  if i ∈ acc then acc else acc ++ [i]

/-- getUniqueSelectedIndices: the deduplicated union of all entry indices,
in JS Set insertion order (first occurrence wins). -/
def getUniqueSelectedIndices (sel : List Entry) : List Nat :=
  sel.foldl (fun acc s => s.indices.foldl jsSetAdd acc) []

/-- worldDeltaToLocalDelta(obj, worldDelta): apply the upper-left 3x3 block
of the inverted matrixWorld — orientation and scale without translation. -/
def worldDeltaToLocalDelta (mesh : Mesh) (worldDelta : Vec3) : Vec3 :=
  applyMatrix3 (Mat3.setFromMatrix4 mesh.matrixWorld.invert) worldDelta

/-- The position-update loop shared verbatim by applySelectionWorldDelta,
weldApplySnap and applyDeltaLocalToIndices: add dLocal to the position at
each listed index (writes at out-of-range indices are dropped, as on a
Float32Array). -/
def applyDeltaLocalToIndices (positions : List Vec3) (indices : List Nat) (d : Vec3) :
    List Vec3 :=
  indices.foldl (fun ps i => ps.set i ((ps.getD i Vec3.zero).add d)) positions

/-- applySelectionWorldDelta(obj, worldDelta): no-op on an empty selection;
otherwise localize the delta, add it to every unique selected position, to
every entry centroid and to the accumulated delta. -/
def applySelectionWorldDelta (eng : Engine) (mesh : Mesh) (worldDelta : Vec3) :
    Engine × Mesh :=
  if eng.selection.isEmpty then (eng, mesh) else
  let dLocal := worldDeltaToLocalDelta mesh worldDelta
  let unique := getUniqueSelectedIndices eng.selection
  ({ eng with
      selection := eng.selection.map (fun s => { s with centroidLocal := s.centroidLocal.add dLocal })
      accDelta := eng.accDelta.add dLocal },
   { mesh with positions := applyDeltaLocalToIndices mesh.positions unique dLocal })

/-! ## Weld detection and snap (deployed variant, src/unnamed/part_000) -/

/-- const DEFAULT_WELD_RADIUS = 0.28. -/
def DEFAULT_WELD_RADIUS : ℚ := 28 / 100

/-- A weld candidate { targetKey, targetPosLocal, dist }; the source stores
the Euclidean distance, we store its square (the comparisons against other
distances and against the nonnegative radius are unchanged). -/
structure WeldCandidate where
  targetKey : ℤ × ℤ × ℤ
  targetPosLocal : Vec3
  distSq : ℚ
deriving DecidableEq, Repr

/-- The selection centroid of weldFindCandidate: mean of the entry
centroids, dividing by the raw count (the function has already returned
when the selection is empty). -/
def selectionCentroid (sel : List Entry) : Vec3 :=
  Vec3.smul (1 / (sel.length : ℚ)) (sel.foldl (fun c s => c.add s.centroidLocal) Vec3.zero)

/-- The selection centroid of weldApplySnap, with its 1/max(1,count) guard. -/
def selectionCentroidClamped (sel : List Entry) : Vec3 :=
  Vec3.smul (1 / ((max 1 sel.length : ℕ) : ℚ))
    (sel.foldl (fun c s => c.add s.centroidLocal) Vec3.zero)

/-- The group scan loop of weldFindCandidate: walk the group map in
insertion order, skip any group containing a selected index, measure the
remaining ones by their first vertex's (squared) distance to the selection
center, and keep the strict minimum (first winner retained on ties). -/
def weldScan (positions : List Vec3) (selectedSet : List Nat) (selCenter : Vec3) :
    List ((ℤ × ℤ × ℤ) × List Nat) → Option ((ℤ × ℤ × ℤ) × Vec3 × ℚ) →
    Option ((ℤ × ℤ × ℤ) × Vec3 × ℚ)
  | [], best => best
  | (k, inds) :: rest, best =>
      if inds.any (fun i => decide (i ∈ selectedSet)) then
        weldScan positions selectedSet selCenter rest best
      else
        match best with
        | none =>
            weldScan positions selectedSet selCenter rest
              (some (k, positions.getD (inds.headD 0) Vec3.zero,
                Vec3.distSq (positions.getD (inds.headD 0) Vec3.zero) selCenter))
        | some b =>
            if Vec3.distSq (positions.getD (inds.headD 0) Vec3.zero) selCenter < b.2.2 then
              weldScan positions selectedSet selCenter rest
                (some (k, positions.getD (inds.headD 0) Vec3.zero,
                  Vec3.distSq (positions.getD (inds.headD 0) Vec3.zero) selCenter))
            else weldScan positions selectedSet selCenter rest (some b)

/-- weldFindCandidate(obj, radius): none on empty selection or explode mode;
otherwise scan the rebuilt groups for the closest one disjoint from the
selection and keep it only within the radius (strictly: bestDist > radius
returns none). -/
def weldFindCandidate (eng : Engine) (mesh : Mesh) (radius : ℚ) : Option WeldCandidate :=
  if eng.selection.isEmpty || eng.flags.explode then none else
  let groups := buildVertexGroups mesh.positions
  let selCenter := selectionCentroid eng.selection
  let selectedSet := getUniqueSelectedIndices eng.selection
  match weldScan mesh.positions selectedSet selCenter groups none with
  | none => none
  | some (k, p, dSq) => if dSq > radius * radius then none else some ⟨k, p, dSq⟩

/-- weldApplySnap(obj, targetPosLocal): translate the whole selection so its
centroid lands on the target — the same position/centroid/accumulator
update loop as applySelectionWorldDelta, with dLocal = target - centroid. -/
def weldApplySnap (eng : Engine) (mesh : Mesh) (targetPosLocal : Vec3) : Engine × Mesh :=
  if eng.selection.isEmpty then (eng, mesh) else
  let unique := getUniqueSelectedIndices eng.selection
  let selCenter := selectionCentroidClamped eng.selection
  let dLocal := targetPosLocal.sub selCenter
  ({ eng with
      selection := eng.selection.map (fun s => { s with centroidLocal := s.centroidLocal.add dLocal })
      accDelta := eng.accDelta.add dLocal },
   { mesh with positions := applyDeltaLocalToIndices mesh.positions unique dLocal })

/-! ## Commit and undo actions -/

/-- The near-zero commit threshold: 1e-12 on the squared length. -/
def COMMIT_EPS_SQ : ℚ := 1 / 1000000000000

/-- The undo action { type: "subEdit", id, indices, delta }; the constant
type tag is left implicit in the Lean structure. -/
structure SubEditAction where
  id : Nat
  indices : List Nat
  delta : Vec3
deriving DecidableEq, Repr

/-- commitSelectionDeltaAsAction(objectId): none on a falsy id (ids are
generated from 1 upward by editor-core, so 0 is the only falsy value in
range), an empty selection, or a negligible accumulated delta; otherwise
emit the action and reset the accumulator, leaving the selection intact. -/
def commitSelectionDeltaAsAction (eng : Engine) (objectId : Nat) :
    Option SubEditAction × Engine :=
  if objectId = 0 then (none, eng)
  else if !hasSelection eng then (none, eng)
  else if eng.accDelta.lengthSq < COMMIT_EPS_SQ then (none, eng)
  else (some ⟨objectId, getUniqueSelectedIndices eng.selection, eng.accDelta⟩,
        { eng with accDelta := Vec3.zero })

/-- applySubEditForward(action): look the object up by id and add the delta
at the action's indices (findObjectById failing is the no-op branch). -/
def applySubEditForward (mesh : Mesh) (a : SubEditAction) : Mesh :=
  if a.id = mesh.id then
    { mesh with positions := applyDeltaLocalToIndices mesh.positions a.indices a.delta }
  else mesh

/-- applySubEditInverse(action): same replay with the negated delta.  The
source updates positions only: entry centroids and the accumulator are not
touched by undo/redo replay. -/
def applySubEditInverse (mesh : Mesh) (a : SubEditAction) : Mesh :=
  if a.id = mesh.id then
    { mesh with positions := applyDeltaLocalToIndices mesh.positions a.indices a.delta.neg }
  else mesh

/-! ## Divergent weld variant (src/editor-subcomponents.js) -/

/-- The weld info record of checkWeld: { sourceIndices, targetPosition,
targetIndices }. -/
structure WeldInfo where
  sourceIndices : List Nat
  targetPosition : Vec3
  targetIndices : List Nat
deriving DecidableEq, Repr

/-- checkWeld(obj) of editor-subcomponents.js: pairwise scan — for each
selected vertex (vertex-kind entries only), find the first non-selected
vertex at Euclidean distance in (0.01, 0.4) and return its whole quantized
group as target.  Distances are compared through their squares. -/
def checkWeld (eng : Engine) (mesh : Mesh) : Option WeldInfo :=
  if !eng.flags.verts || eng.flags.explode then none
  else if !hasSelection eng then none
  else
    let vertexSelections := eng.selection.filter (fun s => decide (s.kind = EKind.v))
    if vertexSelections.isEmpty then none
    else
      let selectedIndices := getUniqueSelectedIndices vertexSelections
      let groups := buildVertexGroups mesh.positions
      selectedIndices.findSome? (fun idx =>
        let p1 := mesh.positions.getD idx Vec3.zero
        (List.range mesh.positions.length).findSome? (fun i =>
          if i ∈ selectedIndices then none
          else
            let p2 := mesh.positions.getD i Vec3.zero
            let dSq := Vec3.distSq p1 p2
            if 1 / 10000 < dSq ∧ dSq < 16 / 100 then
              some ⟨selectedIndices, p2, (mapGet groups (keyForPos p2.x p2.y p2.z)).getD [i]⟩
            else none))

/-- applyWeld(obj, weldInfo) of editor-subcomponents.js: copy the target
position onto every source index and onto every vertex-kind entry centroid;
the accumulated delta is not touched by this variant. -/
def applyWeld (eng : Engine) (mesh : Mesh) (w : WeldInfo) : Engine × Mesh :=
  ({ eng with
      selection := eng.selection.map (fun s =>
        if s.kind = EKind.v then { s with centroidLocal := w.targetPosition } else s) },
   { mesh with positions := w.sourceIndices.foldl (fun ps i => ps.set i w.targetPosition) mesh.positions })

/-- worldToLocal of THREE.Object3D: apply the full inverse of matrixWorld
(including translation) to a point. -/
def worldToLocal (mesh : Mesh) (p : Vec3) : Vec3 :=
  applyMatrix4 mesh.matrixWorld.invert p

/-- The local-delta computation of applySelectionWorldDelta in
editor-subcomponents.js: worldToLocal at a base point and at the base point
shifted by the world delta, subtracted.  The source uses obj.position as
base point; the base point is a parameter here because the difference is
independent of it. -/
def localDeltaViaWorldToLocal (mesh : Mesh) (basePoint worldDelta : Vec3) : Vec3 :=
  (worldToLocal mesh (basePoint.add worldDelta)).sub (worldToLocal mesh basePoint)

/-! ## Modelling devices and concrete fixtures -/

/-- A sequence of drag steps: fold applySelectionWorldDelta over a list of
world deltas, threading engine and mesh. -/
def applyDragSequence (eng : Engine) (mesh : Mesh) (ds : List Vec3) : Engine × Mesh :=
  ds.foldl (fun em d => applySelectionWorldDelta em.1 em.2 d) (eng, mesh)

/-- Sum of a list of vectors (net displacement of a drag sequence). -/
def vec3Sum (ds : List Vec3) : Vec3 := ds.foldl Vec3.add Vec3.zero

/-- The sum of the positions at the listed indices (the accumulator loop of
centroidLocalFromIndices, started from zero). -/
def sumPositionsOver (positions : List Vec3) (indices : List Nat) : Vec3 :=
  indices.foldl (fun c i => c.add (positions.getD i Vec3.zero)) Vec3.zero

/-- The centroid-equals-mean invariant of claim C7: every selection entry
stores exactly the arithmetic mean of its indices' current positions. -/
def centroidOk (eng : Engine) (mesh : Mesh) : Prop :=
  ∀ s ∈ eng.selection, s.centroidLocal = centroidLocalFromIndices mesh.positions s.indices

/-- The identity world transform. -/
def mat4Id : Mat4 := ⟨1,0,0,0, 0,1,0,0, 0,0,1,0, 0,0,0,1⟩

/-- The default flag set of the engine: { verts: true, edges: false,
faces: false, explode: false }. -/
def flagsDefault : Flags := ⟨true, false, false, false⟩

/-- Scenario fixture: vertices 0 and 1 coincident at the origin, vertex 2
at (1,0,0), identity transform (the spec's Scenario A with indices 0,1,2). -/
def meshA : Mesh := ⟨1, [⟨0,0,0⟩, ⟨0,0,0⟩, ⟨1,0,0⟩], mat4Id⟩

/-- Fixture: the merge group {0,1} of meshA selected, baseline captured,
accumulator zero. -/
def engB : Engine :=
  { flags := flagsDefault
    selection := [⟨EKind.v, SelKey.vert (GroupKey.quantized (0,0,0)), [0,1], ⟨0,0,0⟩⟩]
    baseline := some ⟨1, meshA.positions⟩
    accDelta := Vec3.zero }

/-- Fixture: an engine with an empty selection. -/
def engEmpty : Engine := ⟨flagsDefault, [], none, Vec3.zero⟩

/-- Fixture: like meshA but with vertex 2 at (0.2,0,0), within the weld
radius of the selected group at the origin. -/
def meshNear : Mesh := ⟨1, [⟨0,0,0⟩, ⟨0,0,0⟩, ⟨1/5,0,0⟩], mat4Id⟩

/-- Fixture for the checkWeld counterexample: positions (0.1,0,0),
(0.3,0,0), (0.3,0,0) — the state reached by selecting the two separate
groups {0} and {1} of buffer [(0,0,0),(0.2,0,0),(0.3,0,0)] and dragging
the selection by (0.1,0,0), which makes vertex 1 coincide with the
unselected vertex 2. -/
def cexMesh : Mesh := ⟨1, [⟨1/10,0,0⟩, ⟨3/10,0,0⟩, ⟨3/10,0,0⟩], mat4Id⟩

/-- The engine state accompanying cexMesh: two vertex-group entries whose
indices were captured at pick time, centroids moved along with the drag. -/
def cexEng : Engine :=
  { flags := flagsDefault
    selection :=
      [⟨EKind.v, SelKey.vert (GroupKey.quantized (0,0,0)), [0], ⟨1/10,0,0⟩⟩,
       ⟨EKind.v, SelKey.vert (GroupKey.quantized (2000,0,0)), [1], ⟨3/10,0,0⟩⟩]
    baseline := none
    accDelta := ⟨1/10,0,0⟩ }

/-- The weld info checkWeld returns on (cexEng, cexMesh): the target group
[1,2] contains the selected index 1. -/
def cexInfo : WeldInfo := ⟨[0,1], ⟨3/10,0,0⟩, [1,2]⟩

/-- Fixture for the centroid-invariant counterexample: one entry covering
the coincident vertices 0 and 1 of meshA, centroid at their mean. -/
def engE : Engine :=
  { flags := flagsDefault
    selection := [⟨EKind.v, SelKey.vert (GroupKey.quantized (0,0,0)), [0,1], ⟨0,0,0⟩⟩]
    baseline := none
    accDelta := Vec3.zero }

/-- A committed subEdit action on meshA moving vertices 0 and 1 by (1,0,0). -/
def actE : SubEditAction := ⟨1, [0,1], ⟨1,0,0⟩⟩

/-- A world transform scaling x by 2 and translating by (5,6,7). -/
def matST : Mat4 := ⟨2,0,0,5, 0,1,0,6, 0,0,1,7, 0,0,0,1⟩

/-- A mesh carrying the scaled-and-translated transform. -/
def meshST : Mesh := ⟨2, [], matST⟩

/-- Like matST but with a different translation column. -/
def matST2 : Mat4 := ⟨2,0,0,-9, 0,1,0,4, 0,0,1,11, 0,0,0,1⟩

/-- A mesh equal to meshST except for the translation of its transform. -/
def meshST2 : Mesh := ⟨3, [], matST2⟩

/-! ## General lemmas: deduplicated unions and position updates -/

theorem jsSetAdd_nodup {acc : List Nat} {i : Nat} (h : acc.Nodup) : (jsSetAdd acc i).Nodup := by
  unfold jsSetAdd
  split
  · exact h
  · next hmem => simpa [List.nodup_append] using ⟨h, hmem⟩

theorem mem_jsSetAdd {acc : List Nat} {i j : Nat} :
    j ∈ jsSetAdd acc i ↔ j ∈ acc ∨ j = i := by
  unfold jsSetAdd
  split
  · next hmem =>
      constructor
      · exact Or.inl
      · rintro (h | rfl) <;> [exact h; exact hmem]
  · simp

theorem foldl_jsSetAdd_nodup (l : List Nat) :
    ∀ acc : List Nat, acc.Nodup → (l.foldl jsSetAdd acc).Nodup := by
  induction l with
  | nil => exact fun acc h => h
  | cons x xs ih => exact fun acc h => ih _ (jsSetAdd_nodup h)

theorem mem_foldl_jsSetAdd (l : List Nat) :
    ∀ (acc : List Nat) (j : Nat), j ∈ l.foldl jsSetAdd acc ↔ j ∈ acc ∨ j ∈ l := by
  induction l with
  | nil => simp
  | cons x xs ih =>
      intro acc j
      rw [List.foldl_cons, ih, mem_jsSetAdd]
      constructor
      · rintro ((h | rfl) | h)
        · exact Or.inl h
        · exact Or.inr (List.mem_cons_self ..)
        · exact Or.inr (List.mem_cons_of_mem _ h)
      · rintro (h | h)
        · exact Or.inl (Or.inl h)
        · rcases List.mem_cons.1 h with rfl | h
          · exact Or.inl (Or.inr rfl)
          · exact Or.inr h

theorem getUniqueSelectedIndices_nodup (sel : List Entry) :
    (getUniqueSelectedIndices sel).Nodup := by
  unfold getUniqueSelectedIndices
  generalize hacc : ([] : List Nat) = acc
  have h0 : acc.Nodup := by rw [← hacc]; exact List.nodup_nil
  clear hacc
  induction sel generalizing acc with
  | nil => exact h0
  | cons s ss ih => exact ih _ (foldl_jsSetAdd_nodup _ _ h0)

theorem mem_getUniqueSelectedIndices (sel : List Entry) (j : Nat) :
    j ∈ getUniqueSelectedIndices sel ↔ ∃ s ∈ sel, j ∈ s.indices := by
  unfold getUniqueSelectedIndices
  have main : ∀ (l : List Entry) (acc : List Nat),
      j ∈ l.foldl (fun acc s => s.indices.foldl jsSetAdd acc) acc ↔
        j ∈ acc ∨ ∃ s ∈ l, j ∈ s.indices := by
    intro l
    induction l with
    | nil => simp
    | cons s ss ih =>
        intro acc
        rw [List.foldl_cons, ih, mem_foldl_jsSetAdd]
        constructor
        · rintro ((h | h) | h)
          · exact Or.inl h
          · exact Or.inr ⟨s, List.mem_cons_self .., h⟩
          · rcases h with ⟨t, ht, hj⟩
            exact Or.inr ⟨t, List.mem_cons_of_mem _ ht, hj⟩
        · rintro (h | ⟨t, ht, hj⟩)
          · exact Or.inl (Or.inl h)
          · rcases List.mem_cons.1 ht with rfl | ht
            · exact Or.inl (Or.inr hj)
            · exact Or.inr ⟨t, ht, hj⟩
  simpa using main sel []

theorem getUniqueSelectedIndices_map_centroid (sel : List Entry) (f : Entry → Vec3) :
    getUniqueSelectedIndices (sel.map (fun s => { s with centroidLocal := f s })) =
      getUniqueSelectedIndices sel := by
  unfold getUniqueSelectedIndices
  rw [List.foldl_map]

theorem applyDeltaLocalToIndices_length (positions : List Vec3) (inds : List Nat) (d : Vec3) :
    (applyDeltaLocalToIndices positions inds d).length = positions.length := by
  unfold applyDeltaLocalToIndices
  induction inds generalizing positions with
  | nil => rfl
  | cons i rest ih => rw [List.foldl_cons, ih, List.length_set]

theorem applyDeltaLocalToIndices_getElem? {inds : List Nat} (hnd : inds.Nodup)
    (positions : List Vec3) (d : Vec3) (i : Nat) :
    (applyDeltaLocalToIndices positions inds d)[i]? =
      if i ∈ inds then positions[i]?.map (fun p => p.add d) else positions[i]? := by
  unfold applyDeltaLocalToIndices
  induction inds generalizing positions with
  | nil => simp
  | cons j rest ih =>
      have hj : j ∉ rest := (List.nodup_cons.1 hnd).1
      have hrest : rest.Nodup := (List.nodup_cons.1 hnd).2
      rw [List.foldl_cons, ih hrest]
      by_cases hi : i ∈ rest
      · have hij : j ≠ i := fun h => hj (h ▸ hi)
        simp [hi, List.mem_cons.2 (Or.inr hi), List.getElem?_set_ne hij]
      · by_cases hij : i = j
        · subst hij
          simp only [hi, if_false, List.mem_cons.2 (Or.inl rfl), if_true]
          rw [List.getElem?_set']
          by_cases hlen : i < positions.length
          · have : positions[i]? = some positions[i] := List.getElem?_eq_getElem hlen
            simp [this, List.getD_eq_getElem?_getD, Function.const]
          · have : positions[i]? = none := List.getElem?_eq_none (Nat.le_of_not_lt hlen)
            simp [this]
        · have : i ∉ j :: rest := by
            intro h
            rcases List.mem_cons.1 h with h | h
            · exact hij h
            · exact hi h
          simp [hi, this, List.getElem?_set_ne (fun h => hij h.symm)]

theorem applyDeltaLocalToIndices_cancel {inds : List Nat} (hnd : inds.Nodup)
    (positions : List Vec3) (d : Vec3) :
    applyDeltaLocalToIndices (applyDeltaLocalToIndices positions inds d) inds d.neg =
      positions := by
  apply List.ext_getElem?
  intro n
  rw [applyDeltaLocalToIndices_getElem? hnd, applyDeltaLocalToIndices_getElem? hnd]
  by_cases hn : n ∈ inds
  · simp only [hn, if_true, Option.map_map]
    cases positions[n]? with
    | none => rfl
    | some p => simp [Function.comp, Vec3.add_sub_cancel]
  · simp [hn]

/-! ## Matrix lemmas for the coordinate transform -/

theorem mat4_affine_det (M : Mat4) (h41 : M.n41 = 0) (h42 : M.n42 = 0)
    (h43 : M.n43 = 0) (h44 : M.n44 = 1) :
    M.det = (Mat3.setFromMatrix4 M).det := by
  cases M
  simp only at h41 h42 h43 h44
  subst h41 h42 h43 h44
  simp only [Mat4.det, Mat3.det, Mat3.setFromMatrix4, det3x3]
  ring

theorem mat4_affine_invert_linear (M : Mat4) (h41 : M.n41 = 0) (h42 : M.n42 = 0)
    (h43 : M.n43 = 0) (h44 : M.n44 = 1) :
    Mat3.setFromMatrix4 M.invert = Mat3.inv (Mat3.setFromMatrix4 M) := by
  have hdet := mat4_affine_det M h41 h42 h43 h44
  cases M
  simp only at h41 h42 h43 h44
  subst h41 h42 h43 h44
  simp only [Mat4.invert, Mat3.inv, hdet]
  split
  · rfl
  · simp only [Mat3.setFromMatrix4, Mat4.zero, Mat3.mk.injEq] at hdet ⊢
    simp only [Mat3.det, Mat3.setFromMatrix4, det3x3] at hdet ⊢
    refine ⟨?_, ?_, ?_, ?_, ?_, ?_, ?_, ?_, ?_⟩ <;> ring

theorem applyMatrix4_diff (N : Mat4) (b d : Vec3) :
    (applyMatrix4 N (b.add d)).sub (applyMatrix4 N b) =
      applyMatrix3 (Mat3.setFromMatrix4 N) d := by
  cases N; cases b; cases d
  simp only [applyMatrix4, applyMatrix3, Mat3.setFromMatrix4, Vec3.add, Vec3.sub,
    Vec3.mk.injEq]
  exact ⟨by ring, by ring, by ring⟩

/-- C9: the local delta applied by the movement operation is the inverse of
the mesh's world orientation-and-scale (the upper 3x3 linear block) applied
to the world delta, with no translation contribution: (1) the deployed
worldDeltaToLocalDelta equals applying the inverse of the linear block;
(2) a mesh whose world transform agrees except for translation receives the
same local delta; (3) the editor-subcomponents.js variant, which subtracts
two worldToLocal point images, computes the same vector from any base
point.  The hypotheses state that matrixWorld is affine (bottom row
0,0,0,1), which holds for every THREE.Object3D world matrix. -/
theorem c9_localDelta_is_inverse_linear (mesh : Mesh) (d : Vec3)
    (h41 : mesh.matrixWorld.n41 = 0) (h42 : mesh.matrixWorld.n42 = 0)
    (h43 : mesh.matrixWorld.n43 = 0) (h44 : mesh.matrixWorld.n44 = 1) :
    worldDeltaToLocalDelta mesh d =
        applyMatrix3 (Mat3.inv (Mat3.setFromMatrix4 mesh.matrixWorld)) d
    ∧ (∀ mesh2 : Mesh,
        mesh2.matrixWorld.n41 = 0 → mesh2.matrixWorld.n42 = 0 →
        mesh2.matrixWorld.n43 = 0 → mesh2.matrixWorld.n44 = 1 →
        Mat3.setFromMatrix4 mesh2.matrixWorld = Mat3.setFromMatrix4 mesh.matrixWorld →
        worldDeltaToLocalDelta mesh2 d = worldDeltaToLocalDelta mesh d)
    ∧ (∀ basePoint : Vec3,
        localDeltaViaWorldToLocal mesh basePoint d = worldDeltaToLocalDelta mesh d) := by
  have key : ∀ m : Mesh, m.matrixWorld.n41 = 0 → m.matrixWorld.n42 = 0 →
      m.matrixWorld.n43 = 0 → m.matrixWorld.n44 = 1 →
      worldDeltaToLocalDelta m d =
        applyMatrix3 (Mat3.inv (Mat3.setFromMatrix4 m.matrixWorld)) d := by
    intro m hm41 hm42 hm43 hm44
    unfold worldDeltaToLocalDelta
    rw [mat4_affine_invert_linear m.matrixWorld hm41 hm42 hm43 hm44]
  refine ⟨key mesh h41 h42 h43 h44, ?_, ?_⟩
  · intro mesh2 g41 g42 g43 g44 hlin
    rw [key mesh2 g41 g42 g43 g44, key mesh h41 h42 h43 h44, hlin]
  · intro basePoint
    unfold localDeltaViaWorldToLocal worldToLocal worldDeltaToLocalDelta
    exact applyMatrix4_diff _ _ _

/-- Witness for C9 at a concrete transform (x scaled by 2, translated by
(5,6,7)) and world delta (2,4,6): the affine hypotheses hold, the local
delta is (1,4,6), and the translation-shifted transform matST2 gives the
same local delta. -/
theorem c9_localDelta_is_inverse_linear_witness :
    meshST.matrixWorld.n41 = 0 ∧ meshST.matrixWorld.n42 = 0 ∧
    meshST.matrixWorld.n43 = 0 ∧ meshST.matrixWorld.n44 = 1 ∧
    worldDeltaToLocalDelta meshST ⟨2,4,6⟩ =
      applyMatrix3 (Mat3.inv (Mat3.setFromMatrix4 meshST.matrixWorld)) ⟨2,4,6⟩ ∧
    worldDeltaToLocalDelta meshST2 ⟨2,4,6⟩ = worldDeltaToLocalDelta meshST ⟨2,4,6⟩ := by
  refine ⟨rfl, rfl, rfl, rfl,
    (c9_localDelta_is_inverse_linear meshST ⟨2,4,6⟩ rfl rfl rfl rfl).1,
    (c9_localDelta_is_inverse_linear meshST ⟨2,4,6⟩ rfl rfl rfl rfl).2.1 meshST2
      rfl rfl rfl rfl ?_⟩
  rfl

/-! ## Claim C1: quantized grouping keys -/

theorem jsRound_eq_round (q : ℚ) : jsRound q = round q := by
  rw [jsRound, round_eq]

theorem jsRound_ne_of_far {x y : ℚ} (h : GROUP_EPS < |x - y|) :
    jsRound (x / GROUP_EPS) ≠ jsRound (y / GROUP_EPS) := by
  intro heq
  have he : (0:ℚ) < GROUP_EPS := by norm_num [GROUP_EPS]
  rw [jsRound_eq_round, jsRound_eq_round] at heq
  have h1 : |x / GROUP_EPS - (round (x / GROUP_EPS) : ℚ)| ≤ 1 / 2 := abs_sub_round _
  have h2 : |y / GROUP_EPS - (round (y / GROUP_EPS) : ℚ)| ≤ 1 / 2 := abs_sub_round _
  rw [heq] at h1
  have h3 : |x / GROUP_EPS - y / GROUP_EPS| ≤ 1 := by
    have hsplit : x / GROUP_EPS - y / GROUP_EPS =
        (x / GROUP_EPS - (round (y / GROUP_EPS) : ℚ)) -
          (y / GROUP_EPS - (round (y / GROUP_EPS) : ℚ)) := by ring
    rw [hsplit]
    calc |(x / GROUP_EPS - (round (y / GROUP_EPS) : ℚ)) -
            (y / GROUP_EPS - (round (y / GROUP_EPS) : ℚ))|
        ≤ |x / GROUP_EPS - (round (y / GROUP_EPS) : ℚ)| +
            |y / GROUP_EPS - (round (y / GROUP_EPS) : ℚ)| := abs_sub _ _
      _ ≤ 1 / 2 + 1 / 2 := add_le_add h1 h2
      _ = 1 := by norm_num
  have h4 : |x - y| ≤ GROUP_EPS := by
    have hx : x - y = (x / GROUP_EPS - y / GROUP_EPS) * GROUP_EPS := by
      field_simp
    rw [hx, abs_mul, abs_of_pos he]
    calc |x / GROUP_EPS - y / GROUP_EPS| * GROUP_EPS ≤ 1 * GROUP_EPS :=
          mul_le_mul_of_nonneg_right h3 he.le
      _ = GROUP_EPS := one_mul _
  linarith

/-- C1 (amended): in merge mode the key of a vertex is the triple of its
coordinates divided by GROUP_EPS = 1e-4 and rounded (Math.round); two
vertices get the same key exactly when all three coordinates round to the
same integers, and a difference exceeding epsilon on some axis guarantees
different keys.  A per-axis difference of at most epsilon does not
guarantee equal keys (see the counterexample). -/
theorem c1_grouping_quantization (p q : Vec3) :
    (keyForPos p.x p.y p.z = keyForPos q.x q.y q.z ↔
      jsRound (p.x / GROUP_EPS) = jsRound (q.x / GROUP_EPS) ∧
      jsRound (p.y / GROUP_EPS) = jsRound (q.y / GROUP_EPS) ∧
      jsRound (p.z / GROUP_EPS) = jsRound (q.z / GROUP_EPS))
    ∧ ((GROUP_EPS < |p.x - q.x| ∨ GROUP_EPS < |p.y - q.y| ∨ GROUP_EPS < |p.z - q.z|) →
        keyForPos p.x p.y p.z ≠ keyForPos q.x q.y q.z) := by
  constructor
  · unfold keyForPos
    simp [Prod.ext_iff]
  · intro hfar heq
    unfold keyForPos at heq
    simp only [Prod.mk.injEq] at heq
    rcases hfar with h | h | h
    · exact jsRound_ne_of_far h heq.1
    · exact jsRound_ne_of_far h heq.2.1
    · exact jsRound_ne_of_far h heq.2.2

/-- Witness for C1 (amended) at a concrete pair 2e-4 apart on the x axis. -/
theorem c1_grouping_quantization_witness :
    GROUP_EPS < |(0:ℚ) - 2/10000| ∧ keyForPos 0 0 0 ≠ keyForPos (2/10000) 0 0 :=
  ⟨by rw [abs_sub_comm]; norm_num [GROUP_EPS, abs_of_nonneg],
   (c1_grouping_quantization ⟨0,0,0⟩ ⟨2/10000,0,0⟩).2
     (Or.inl (by rw [abs_sub_comm]; norm_num [GROUP_EPS, abs_of_nonneg]))⟩

/-- Counterexample to C1 as stated: the vertices (0,0,0) and (1e-4,0,0)
differ by at most epsilon on every axis, yet Math.round(0/eps) = 0 and
Math.round(1e-4/eps) = 1 produce different keys. -/
theorem c1_within_epsilon_counterexample :
    |(0:ℚ) - 1/10000| ≤ GROUP_EPS ∧ |(0:ℚ) - 0| ≤ GROUP_EPS ∧
    keyForPos 0 0 0 ≠ keyForPos (1/10000) 0 0 := by
  refine ⟨by rw [abs_sub_comm]; norm_num [GROUP_EPS, abs_of_nonneg],
    by norm_num [GROUP_EPS], ?_⟩
  norm_num [keyForPos, jsRound, GROUP_EPS]
  decide

/-! ## Claim C10: toggle idempotence -/

theorem refreshBaselineForPick_flags (eng : Engine) (mesh : Mesh) :
    (refreshBaselineForPick eng mesh).flags = eng.flags := by
  unfold refreshBaselineForPick setBaselineFromCurrent
  cases eng.baseline with
  | none => rfl
  | some b => dsimp only; split <;> rfl

theorem refreshBaselineForPick_selection (eng : Engine) (mesh : Mesh) :
    (refreshBaselineForPick eng mesh).selection = eng.selection := by
  unfold refreshBaselineForPick setBaselineFromCurrent
  cases eng.baseline with
  | none => rfl
  | some b => dsimp only; split <;> rfl

theorem refreshBaselineForPick_matching (eng : Engine) (mesh : Mesh) :
    ∃ b : Baseline, (refreshBaselineForPick eng mesh).baseline = some b ∧ b.id = mesh.id ∨
      (refreshBaselineForPick eng mesh) = eng ∧ eng.baseline = some b ∧ b.id = mesh.id := by
  unfold refreshBaselineForPick setBaselineFromCurrent
  cases heb : eng.baseline with
  | none => exact ⟨⟨mesh.id, mesh.positions⟩, Or.inl ⟨rfl, rfl⟩⟩
  | some b =>
      dsimp only
      by_cases hid : b.id = mesh.id
      · exact ⟨b, Or.inr ⟨by rw [if_pos hid], rfl, hid⟩⟩
      · exact ⟨⟨mesh.id, mesh.positions⟩, Or.inl ⟨by rw [if_neg hid], rfl⟩⟩

theorem refreshBaselineForPick_baseline_id (eng : Engine) (mesh : Mesh) :
    ∃ b : Baseline, (refreshBaselineForPick eng mesh).baseline = some b ∧ b.id = mesh.id := by
  rcases refreshBaselineForPick_matching eng mesh with ⟨b, h | ⟨hfix, hbl, hid⟩⟩
  · exact ⟨b, h⟩
  · exact ⟨b, by rw [hfix]; exact hbl, hid⟩

theorem refreshBaselineForPick_of_matching (eng : Engine) (mesh : Mesh) (b : Baseline)
    (hb : eng.baseline = some b) (hid : b.id = mesh.id) :
    refreshBaselineForPick eng mesh = eng := by
  unfold refreshBaselineForPick
  rw [hb]
  dsimp only
  rw [if_pos hid]

theorem toggleEntryByKey_twice_keys_perm (sel : List Entry) (ent1 ent2 : Entry)
    (hk : ent2.key = ent1.key) (hnd : (sel.map Entry.key).Nodup) :
    ((toggleEntryByKey (toggleEntryByKey sel ent1) ent2).map Entry.key).Perm
      (sel.map Entry.key) := by
  unfold toggleEntryByKey
  simp only [hk]
  by_cases hany : sel.any (fun s => decide (s.key = ent1.key)) = true
  · rw [if_pos hany]
    obtain ⟨a, ha, hpa⟩ := List.any_eq_true.1 hany
    obtain ⟨a2, l1, l2, hl1, hpa2, heq, herase⟩ :=
      List.exists_of_eraseP (p := fun s => decide (s.key = ent1.key)) ha hpa
    have hkey2 : a2.key = ent1.key := of_decide_eq_true hpa2
    subst heq
    rw [List.map_append, List.map_cons] at hnd
    have ha2notin : a2.key ∉ l2.map Entry.key :=
      (List.nodup_cons.1 (List.nodup_append.1 hnd).2.1).1
    have hanyf : ((l1 ++ l2).any fun s => decide (s.key = ent1.key)) = false := by
      rw [List.any_eq_false]
      intro c hc
      rcases List.mem_append.1 hc with h | h
      · exact hl1 c h
      · simp only [decide_eq_true_eq]
        intro hckey
        exact ha2notin (List.mem_map.2 ⟨c, h, by rw [hckey, hkey2]⟩)
    rw [herase, if_neg (by simp [hanyf])]
    simp only [List.map_append, List.map_cons, List.map_nil]
    rw [List.append_assoc]
    refine List.Perm.append_left _ ?_
    have hko : ent2.key = a2.key := by rw [hk, hkey2]
    rw [hko]
    exact List.perm_append_comm
  · rw [if_neg hany]
    have hpe : (fun s => decide (s.key = ent1.key)) ent1 = true := decide_eq_true rfl
    have hself : ((sel ++ [ent1]).any fun s => decide (s.key = ent1.key)) = true :=
      List.any_eq_true.2 ⟨ent1, List.mem_append.2 (Or.inr (List.mem_cons_self ..)), hpe⟩
    rw [if_pos hself]
    have hsel : ∀ c ∈ sel, ¬ ((fun s => decide (s.key = ent1.key)) c = true) :=
      fun c hc hpc => hany (List.any_eq_true.2 ⟨c, hc, hpc⟩)
    have herase1 : List.eraseP (fun s => decide (s.key = ent1.key)) [ent1] = [] := by simp
    rw [List.eraseP_append_right _ hsel, herase1]
    simp

theorem double_toggle_core (eng : Engine) (mesh : Mesh)
    (hnd : (eng.selection.map Entry.key).Nodup)
    (flag : Flags → Bool) (mk : Flags → Entry) (step : Engine → Engine)
    (hselstep : ∀ e : Engine, (step e).selection =
      if flag (refreshBaselineForPick e mesh).flags then
        toggleEntryByKey (refreshBaselineForPick e mesh).selection
          (mk (refreshBaselineForPick e mesh).flags)
      else (refreshBaselineForPick e mesh).selection)
    (hflagstep : ∀ e : Engine, (step e).flags = e.flags)
    (hbasestep : ∀ e : Engine, (step e).baseline = (refreshBaselineForPick e mesh).baseline) :
    ((step (step eng)).selection.map Entry.key).Perm (eng.selection.map Entry.key) := by
  obtain ⟨b1, hb1, hid1⟩ := refreshBaselineForPick_baseline_id eng mesh
  have hrefl2 : refreshBaselineForPick (step eng) mesh = step eng :=
    refreshBaselineForPick_of_matching _ mesh b1 (by rw [hbasestep eng]; exact hb1) hid1
  have hsel2 : (step (step eng)).selection =
      if flag (step eng).flags then
        toggleEntryByKey (step eng).selection (mk (step eng).flags)
      else (step eng).selection := by
    rw [hselstep (step eng), hrefl2]
  have hflags1 : (step eng).flags = eng.flags := hflagstep eng
  have hsel1 : (step eng).selection =
      if flag eng.flags then toggleEntryByKey eng.selection (mk eng.flags)
      else eng.selection := by
    rw [hselstep eng, refreshBaselineForPick_flags, refreshBaselineForPick_selection]
  by_cases hf : flag eng.flags = true
  · rw [hsel2, hflags1, if_pos hf, hsel1, if_pos hf]
    exact toggleEntryByKey_twice_keys_perm _ _ _ rfl hnd
  · rw [hsel2, hflags1, if_neg hf, hsel1, if_neg hf]

theorem togglePickVertex_selection (eng : Engine) (mesh : Mesh) (idx : Nat) :
    (togglePickVertex eng mesh idx).selection =
      if (refreshBaselineForPick eng mesh).flags.verts then
        toggleEntryByKey (refreshBaselineForPick eng mesh).selection
          ⟨EKind.v,
           makeSelectionKey EKind.v
             (getGroupForVertexIndex (refreshBaselineForPick eng mesh).flags.explode
               mesh.positions idx).1
             (getGroupForVertexIndex (refreshBaselineForPick eng mesh).flags.explode
               mesh.positions idx).2,
           (getGroupForVertexIndex (refreshBaselineForPick eng mesh).flags.explode
             mesh.positions idx).2,
           centroidLocalFromIndices mesh.positions
             (getGroupForVertexIndex (refreshBaselineForPick eng mesh).flags.explode
               mesh.positions idx).2⟩
      else (refreshBaselineForPick eng mesh).selection := by
  unfold togglePickVertex
  dsimp only
  split <;> rfl

theorem togglePickVertex_flags (eng : Engine) (mesh : Mesh) (idx : Nat) :
    (togglePickVertex eng mesh idx).flags = eng.flags := by
  unfold togglePickVertex
  dsimp only
  split <;> exact refreshBaselineForPick_flags eng mesh

theorem togglePickVertex_baseline (eng : Engine) (mesh : Mesh) (idx : Nat) :
    (togglePickVertex eng mesh idx).baseline = (refreshBaselineForPick eng mesh).baseline := by
  unfold togglePickVertex
  dsimp only
  split <;> rfl

theorem togglePickEdge_selection (eng : Engine) (mesh : Mesh) (pair : Nat × Nat) :
    (togglePickEdge eng mesh pair).selection =
      if (refreshBaselineForPick eng mesh).flags.edges then
        toggleEntryByKey (refreshBaselineForPick eng mesh).selection
          ⟨EKind.e, makeSelectionKey EKind.e (GroupKey.identity 0) [pair.1, pair.2],
           [pair.1, pair.2], centroidLocalFromIndices mesh.positions [pair.1, pair.2]⟩
      else (refreshBaselineForPick eng mesh).selection := by
  unfold togglePickEdge
  dsimp only
  split <;> rfl

theorem togglePickEdge_flags (eng : Engine) (mesh : Mesh) (pair : Nat × Nat) :
    (togglePickEdge eng mesh pair).flags = eng.flags := by
  unfold togglePickEdge
  dsimp only
  split <;> exact refreshBaselineForPick_flags eng mesh

theorem togglePickEdge_baseline (eng : Engine) (mesh : Mesh) (pair : Nat × Nat) :
    (togglePickEdge eng mesh pair).baseline = (refreshBaselineForPick eng mesh).baseline := by
  unfold togglePickEdge
  dsimp only
  split <;> rfl

theorem togglePickFace_selection (eng : Engine) (mesh : Mesh) (tri : Nat × Nat × Nat) :
    (togglePickFace eng mesh tri).selection =
      if (refreshBaselineForPick eng mesh).flags.faces then
        toggleEntryByKey (refreshBaselineForPick eng mesh).selection
          ⟨EKind.f, makeSelectionKey EKind.f (GroupKey.identity 0) [tri.1, tri.2.1, tri.2.2],
           [tri.1, tri.2.1, tri.2.2],
           centroidLocalFromIndices mesh.positions [tri.1, tri.2.1, tri.2.2]⟩
      else (refreshBaselineForPick eng mesh).selection := by
  unfold togglePickFace
  dsimp only
  split <;> rfl

theorem togglePickFace_flags (eng : Engine) (mesh : Mesh) (tri : Nat × Nat × Nat) :
    (togglePickFace eng mesh tri).flags = eng.flags := by
  unfold togglePickFace
  dsimp only
  split <;> exact refreshBaselineForPick_flags eng mesh

theorem togglePickFace_baseline (eng : Engine) (mesh : Mesh) (tri : Nat × Nat × Nat) :
    (togglePickFace eng mesh tri).baseline = (refreshBaselineForPick eng mesh).baseline := by
  unfold togglePickFace
  dsimp only
  split <;> rfl

/-- C10: toggling the same pick twice in immediate succession leaves the
selection's key set unchanged (stated as a permutation of the key lists,
which on the maintained duplicate-free selections is set equality), for all
three element kinds; in particular, starting from an empty selection, two
identical vertex picks leave the selection empty and hasSelection() false.
togglePick never writes the position buffer (visible in the embedding: the
toggles return only an engine state), so the mesh is unchanged from before
either pick. -/
theorem c10_toggle_idempotence (eng : Engine) (mesh : Mesh)
    (hnd : (eng.selection.map Entry.key).Nodup) :
    (∀ idx : Nat,
      ((togglePickVertex (togglePickVertex eng mesh idx) mesh idx).selection.map
        Entry.key).Perm (eng.selection.map Entry.key))
    ∧ (∀ pair : Nat × Nat,
      ((togglePickEdge (togglePickEdge eng mesh pair) mesh pair).selection.map
        Entry.key).Perm (eng.selection.map Entry.key))
    ∧ (∀ tri : Nat × Nat × Nat,
      ((togglePickFace (togglePickFace eng mesh tri) mesh tri).selection.map
        Entry.key).Perm (eng.selection.map Entry.key))
    ∧ (eng.selection = [] → ∀ idx : Nat,
        (togglePickVertex (togglePickVertex eng mesh idx) mesh idx).selection = [] ∧
        hasSelection (togglePickVertex (togglePickVertex eng mesh idx) mesh idx) = false) := by
  have hv : ∀ idx : Nat,
      ((togglePickVertex (togglePickVertex eng mesh idx) mesh idx).selection.map
        Entry.key).Perm (eng.selection.map Entry.key) := by
    intro idx
    exact double_toggle_core eng mesh hnd Flags.verts
      (fun fl => ⟨EKind.v,
        makeSelectionKey EKind.v (getGroupForVertexIndex fl.explode mesh.positions idx).1
          (getGroupForVertexIndex fl.explode mesh.positions idx).2,
        (getGroupForVertexIndex fl.explode mesh.positions idx).2,
        centroidLocalFromIndices mesh.positions
          (getGroupForVertexIndex fl.explode mesh.positions idx).2⟩)
      (fun e => togglePickVertex e mesh idx)
      (fun e => togglePickVertex_selection e mesh idx)
      (fun e => togglePickVertex_flags e mesh idx)
      (fun e => togglePickVertex_baseline e mesh idx)
  refine ⟨hv, ?_, ?_, ?_⟩
  · intro pair
    exact double_toggle_core eng mesh hnd Flags.edges
      (fun _ => ⟨EKind.e, makeSelectionKey EKind.e (GroupKey.identity 0) [pair.1, pair.2],
        [pair.1, pair.2], centroidLocalFromIndices mesh.positions [pair.1, pair.2]⟩)
      (fun e => togglePickEdge e mesh pair)
      (fun e => togglePickEdge_selection e mesh pair)
      (fun e => togglePickEdge_flags e mesh pair)
      (fun e => togglePickEdge_baseline e mesh pair)
  · intro tri
    exact double_toggle_core eng mesh hnd Flags.faces
      (fun _ => ⟨EKind.f, makeSelectionKey EKind.f (GroupKey.identity 0)
          [tri.1, tri.2.1, tri.2.2],
        [tri.1, tri.2.1, tri.2.2],
        centroidLocalFromIndices mesh.positions [tri.1, tri.2.1, tri.2.2]⟩)
      (fun e => togglePickFace e mesh tri)
      (fun e => togglePickFace_selection e mesh tri)
      (fun e => togglePickFace_flags e mesh tri)
      (fun e => togglePickFace_baseline e mesh tri)
  · intro hnil idx
    have hperm := hv idx
    rw [hnil] at hperm
    have hmapnil : ((togglePickVertex (togglePickVertex eng mesh idx) mesh idx).selection.map
        Entry.key) = [] := List.Perm.eq_nil (by simpa using hperm)
    have hselnil : (togglePickVertex (togglePickVertex eng mesh idx) mesh idx).selection = [] :=
      List.map_eq_nil_iff.1 hmapnil
    exact ⟨hselnil, by simp [hasSelection, hselnil]⟩

/-- Witness for C10 at the empty selection and a concrete mesh: double
vertex pick of index 0 leaves the selection empty. -/
theorem c10_toggle_idempotence_witness :
    (engEmpty.selection.map Entry.key).Nodup ∧
    (togglePickVertex (togglePickVertex engEmpty meshA 0) meshA 0).selection = [] ∧
    hasSelection (togglePickVertex (togglePickVertex engEmpty meshA 0) meshA 0) = false := by
  refine ⟨by simp [engEmpty], ?_, ?_⟩
  · exact ((c10_toggle_idempotence engEmpty meshA (by simp [engEmpty])).2.2.2 rfl 0).1
  · exact ((c10_toggle_idempotence engEmpty meshA (by simp [engEmpty])).2.2.2 rfl 0).2

/-! ## Claim C4: commit emptiness and action shape -/

theorem Vec3.zero_add_left (a : Vec3) : Vec3.zero.add a = a := by
  simp [Vec3.add, Vec3.zero]

theorem Vec3.lengthSq_zero : Vec3.zero.lengthSq = 0 := by
  simp [Vec3.lengthSq, Vec3.zero]

theorem applyMatrix3_add (m : Mat3) (a b : Vec3) :
    applyMatrix3 m (a.add b) = (applyMatrix3 m a).add (applyMatrix3 m b) := by
  simp only [applyMatrix3, Vec3.add, Vec3.mk.injEq]
  exact ⟨by ring, by ring, by ring⟩

theorem applyMatrix3_zero (m : Mat3) : applyMatrix3 m Vec3.zero = Vec3.zero := by
  simp only [applyMatrix3, Vec3.zero, Vec3.mk.injEq]
  exact ⟨by ring, by ring, by ring⟩

theorem worldDeltaToLocalDelta_add (mesh : Mesh) (a b : Vec3) :
    worldDeltaToLocalDelta mesh (a.add b) =
      (worldDeltaToLocalDelta mesh a).add (worldDeltaToLocalDelta mesh b) :=
  applyMatrix3_add _ _ _

theorem worldDeltaToLocalDelta_zero (mesh : Mesh) :
    worldDeltaToLocalDelta mesh Vec3.zero = Vec3.zero :=
  applyMatrix3_zero _

theorem worldDeltaToLocalDelta_congr {m1 m2 : Mesh}
    (h : m1.matrixWorld = m2.matrixWorld) (d : Vec3) :
    worldDeltaToLocalDelta m1 d = worldDeltaToLocalDelta m2 d := by
  unfold worldDeltaToLocalDelta
  rw [h]

theorem foldl_vec3add_shift (ds : List Vec3) :
    ∀ a : Vec3, ds.foldl Vec3.add a = a.add (vec3Sum ds) := by
  induction ds with
  | nil => intro a; simp [vec3Sum, Vec3.add_zero_right]
  | cons d ds ih =>
      intro a
      have hv : vec3Sum (d :: ds) = d.add (vec3Sum ds) := by
        show List.foldl Vec3.add Vec3.zero (d :: ds) = _
        rw [List.foldl_cons, ih, Vec3.zero_add_left]
      rw [List.foldl_cons, ih, hv, Vec3.add_assoc]

theorem vec3Sum_cons (d : Vec3) (ds : List Vec3) :
    vec3Sum (d :: ds) = d.add (vec3Sum ds) := by
  rw [vec3Sum, List.foldl_cons, Vec3.zero_add_left, foldl_vec3add_shift]

theorem applySelectionWorldDelta_of_nonempty (eng : Engine) (mesh : Mesh) (d : Vec3)
    (h : eng.selection ≠ []) :
    applySelectionWorldDelta eng mesh d =
      ({ eng with
          selection := eng.selection.map (fun s =>
            { s with centroidLocal := s.centroidLocal.add (worldDeltaToLocalDelta mesh d) })
          accDelta := eng.accDelta.add (worldDeltaToLocalDelta mesh d) },
       { mesh with positions := (applyDeltaLocalToIndices mesh.positions
          (getUniqueSelectedIndices eng.selection) (worldDeltaToLocalDelta mesh d)) }) := by
  unfold applySelectionWorldDelta
  rw [if_neg (by simpa [List.isEmpty_iff] using h)]

theorem applySelectionWorldDelta_of_empty (eng : Engine) (mesh : Mesh) (d : Vec3)
    (h : eng.selection = []) :
    applySelectionWorldDelta eng mesh d = (eng, mesh) := by
  unfold applySelectionWorldDelta
  rw [if_pos (by simpa [List.isEmpty_iff] using h)]

theorem applySelectionWorldDelta_matrixWorld (eng : Engine) (mesh : Mesh) (d : Vec3) :
    (applySelectionWorldDelta eng mesh d).2.matrixWorld = mesh.matrixWorld := by
  unfold applySelectionWorldDelta
  split <;> rfl

theorem applyDragSequence_of_empty (ds : List Vec3) :
    ∀ (eng : Engine) (mesh : Mesh), eng.selection = [] →
      applyDragSequence eng mesh ds = (eng, mesh) := by
  induction ds with
  | nil => intro eng mesh _; rfl
  | cons d ds ih =>
      intro eng mesh h
      unfold applyDragSequence
      rw [List.foldl_cons]
      have h1 := applySelectionWorldDelta_of_empty eng mesh d h
      rw [h1]
      exact ih eng mesh h

theorem applyDragSequence_acc (ds : List Vec3) :
    ∀ (eng : Engine) (mesh : Mesh), eng.selection ≠ [] →
      (applyDragSequence eng mesh ds).1.accDelta =
          eng.accDelta.add (worldDeltaToLocalDelta mesh (vec3Sum ds))
        ∧ (applyDragSequence eng mesh ds).1.selection ≠ [] := by
  induction ds with
  | nil =>
      intro eng mesh h
      constructor
      · show eng.accDelta = _
        rw [show vec3Sum [] = Vec3.zero from rfl, worldDeltaToLocalDelta_zero,
          Vec3.add_zero_right]
      · exact h
  | cons d ds ih =>
      intro eng mesh h
      have hstep := applySelectionWorldDelta_of_nonempty eng mesh d h
      have hne : (applySelectionWorldDelta eng mesh d).1.selection ≠ [] := by
        rw [hstep]
        simpa using h
      have hmw := applySelectionWorldDelta_matrixWorld eng mesh d
      have hunf : applyDragSequence eng mesh (d :: ds) =
          applyDragSequence (applySelectionWorldDelta eng mesh d).1
            (applySelectionWorldDelta eng mesh d).2 ds := by
        unfold applyDragSequence
        rw [List.foldl_cons]
      obtain ⟨ihacc, ihne⟩ := ih (applySelectionWorldDelta eng mesh d).1
        (applySelectionWorldDelta eng mesh d).2 hne
      constructor
      · rw [hunf, ihacc, worldDeltaToLocalDelta_congr hmw, hstep]
        show (eng.accDelta.add (worldDeltaToLocalDelta mesh d)).add _ = _
        rw [Vec3.add_assoc, ← worldDeltaToLocalDelta_add, ← vec3Sum_cons]
      · rw [hunf]
        exact ihne

/-- C4: commit returns none exactly on the degenerate inputs — in
particular after any drag sequence with zero net world displacement —
and otherwise emits the deduplicated selected index union together with a
copy of the accumulated delta, resetting the accumulator and leaving the
selection untouched.  The positive branch assumes a truthy target id; the
host generates ids from 1 upward, so 0 is the only falsy value. -/
theorem c4_commit_characterization (eng : Engine) (tid : Nat) :
    ((eng.selection = [] ∨ eng.accDelta.lengthSq < COMMIT_EPS_SQ) →
      (commitSelectionDeltaAsAction eng tid).1 = none)
    ∧ (tid ≠ 0 → eng.selection ≠ [] → ¬ eng.accDelta.lengthSq < COMMIT_EPS_SQ →
        commitSelectionDeltaAsAction eng tid =
          (some ⟨tid, getUniqueSelectedIndices eng.selection, eng.accDelta⟩,
           { eng with accDelta := Vec3.zero }))
    ∧ (getUniqueSelectedIndices eng.selection).Nodup
    ∧ (∀ i : Nat, i ∈ getUniqueSelectedIndices eng.selection ↔
        ∃ s ∈ eng.selection, i ∈ s.indices)
    ∧ (∀ (mesh : Mesh) (ds : List Vec3), eng.accDelta = Vec3.zero →
        vec3Sum ds = Vec3.zero →
        (commitSelectionDeltaAsAction (applyDragSequence eng mesh ds).1 tid).1 = none) := by
  refine ⟨?_, ?_, getUniqueSelectedIndices_nodup _, mem_getUniqueSelectedIndices _, ?_⟩
  · intro h
    unfold commitSelectionDeltaAsAction
    by_cases h0 : tid = 0
    · rw [if_pos h0]
    · rw [if_neg h0]
      by_cases hs : (!hasSelection eng) = true
      · rw [if_pos hs]
      · rw [if_neg hs]
        rcases h with h | h
        · exact absurd (by simp [hasSelection, List.isEmpty_iff, h]) hs
        · rw [if_pos h]
  · intro htid hsel hacc
    unfold commitSelectionDeltaAsAction
    rw [if_neg htid, if_neg (by simp [hasSelection, List.isEmpty_iff, hsel]),
      if_neg hacc]
  · intro mesh ds hacc hsum
    by_cases hsel : eng.selection = []
    · rw [applyDragSequence_of_empty ds eng mesh hsel]
      unfold commitSelectionDeltaAsAction
      by_cases h0 : tid = 0
      · rw [if_pos h0]
      · rw [if_neg h0,
          if_pos (by simp [hasSelection, List.isEmpty_iff, hsel] : (!hasSelection eng) = true)]
    · obtain ⟨hafter, _⟩ := applyDragSequence_acc ds eng mesh hsel
      have hzero : (applyDragSequence eng mesh ds).1.accDelta = Vec3.zero := by
        rw [hafter, hacc, hsum, worldDeltaToLocalDelta_zero, Vec3.zero_add_left]
      unfold commitSelectionDeltaAsAction
      by_cases h0 : tid = 0
      · rw [if_pos h0]
      · rw [if_neg h0]
        by_cases hs : (!hasSelection (applyDragSequence eng mesh ds).1) = true
        · rw [if_pos hs]
        · rw [if_neg hs,
            if_pos (by rw [hzero, Vec3.lengthSq_zero]; norm_num [COMMIT_EPS_SQ])]

/-- Witness for C4 at the concrete selected state engB: a nonzero
accumulator commits to the expected action, and a back-and-forth drag pair
with zero net displacement commits to none. -/
theorem c4_commit_characterization_witness :
    ((1 : Nat) ≠ 0 ∧ engB.selection ≠ [] ∧
      ¬ (Vec3.mk 1 0 0).lengthSq < COMMIT_EPS_SQ) ∧
    commitSelectionDeltaAsAction { engB with accDelta := ⟨1,0,0⟩ } 1 =
      (some ⟨1, [0,1], ⟨1,0,0⟩⟩, { engB with accDelta := Vec3.zero }) ∧
    vec3Sum [⟨1,0,0⟩, ⟨-1,0,0⟩] = Vec3.zero ∧
    (commitSelectionDeltaAsAction
      (applyDragSequence engB meshA [⟨1,0,0⟩, ⟨-1,0,0⟩]).1 1).1 = none := by
  have h1 : (1 : Nat) ≠ 0 := one_ne_zero
  have h2 : engB.selection ≠ [] := by simp [engB]
  have h3 : ¬ (Vec3.mk 1 0 0).lengthSq < COMMIT_EPS_SQ := by
    norm_num [Vec3.lengthSq, COMMIT_EPS_SQ]
  have h4 : vec3Sum [⟨1,0,0⟩, ⟨-1,0,0⟩] = Vec3.zero := by
    norm_num [vec3Sum, Vec3.add, Vec3.zero]
  refine ⟨⟨h1, h2, h3⟩, ?_, h4, ?_⟩
  · have := (c4_commit_characterization { engB with accDelta := ⟨1,0,0⟩ } 1).2.1 h1
      (by simp [engB]) h3
    rw [this]
    norm_num [engB, getUniqueSelectedIndices, jsSetAdd]
  · exact (c4_commit_characterization engB 1).2.2.2.2 meshA [⟨1,0,0⟩, ⟨-1,0,0⟩] rfl h4

/-! ## Claim C2: move, commit, undo round trip -/

theorem commit_none_of_small (eng : Engine) (tid : Nat)
    (hacc : eng.accDelta.lengthSq < COMMIT_EPS_SQ) :
    (commitSelectionDeltaAsAction eng tid).1 = none := by
  unfold commitSelectionDeltaAsAction
  by_cases h0 : tid = 0
  · rw [if_pos h0]
  · rw [if_neg h0]
    by_cases hs : (!hasSelection eng) = true
    · rw [if_pos hs]
    · rw [if_neg hs, if_pos hacc]

theorem commit_some_of_truthy (eng : Engine) (tid : Nat) (htid : tid ≠ 0)
    (hsel : eng.selection ≠ []) (hacc : ¬ eng.accDelta.lengthSq < COMMIT_EPS_SQ) :
    commitSelectionDeltaAsAction eng tid =
      (some ⟨tid, getUniqueSelectedIndices eng.selection, eng.accDelta⟩,
       { eng with accDelta := Vec3.zero }) := by
  unfold commitSelectionDeltaAsAction
  rw [if_neg htid, if_neg (by simp [hasSelection, List.isEmpty_iff, hsel]), if_neg hacc]

theorem abs_comps_le_of_lengthSq_lt {a : Vec3} {c : ℚ} (hc : 0 ≤ c)
    (h : a.lengthSq < c * c) : |a.x| ≤ c ∧ |a.y| ≤ c ∧ |a.z| ≤ c := by
  have hx2 : a.x * a.x ≤ a.lengthSq := by
    have hy := mul_self_nonneg a.y
    have hz := mul_self_nonneg a.z
    simp only [Vec3.lengthSq]; linarith
  have hy2 : a.y * a.y ≤ a.lengthSq := by
    have hx := mul_self_nonneg a.x
    have hz := mul_self_nonneg a.z
    simp only [Vec3.lengthSq]; linarith
  have hz2 : a.z * a.z ≤ a.lengthSq := by
    have hx := mul_self_nonneg a.x
    have hy := mul_self_nonneg a.y
    simp only [Vec3.lengthSq]; linarith
  have key : ∀ u : ℚ, u * u ≤ a.lengthSq → |u| ≤ c := by
    intro u hu
    by_cases hcon : |u| ≤ c
    · exact hcon
    · exfalso
      push_neg at hcon
      nlinarith [abs_nonneg u, abs_mul_abs_self u]
  exact ⟨key a.x hx2, key a.y hy2, key a.z hz2⟩

/-- C2: for a fresh edit state (nothing yet uncommitted) with a non-empty
selection, applying a world delta through the movement operation and
committing either yields an action whose inverse replay restores every
position exactly (the rational idealization of "within 1e-6"), or yields
none, in which case the accumulated local delta was already below the
commit threshold and every coordinate of every position is within 1e-6 of
its pre-delta value.  The target id is the mesh's own id, as passed by the
host (ids are generated from 1 upward, hence nonzero). -/
theorem c2_move_commit_undo_roundtrip (eng : Engine) (mesh : Mesh) (d : Vec3) (tid : Nat)
    (hsel : eng.selection ≠ []) (hacc : eng.accDelta = Vec3.zero)
    (htid : tid ≠ 0) (hmid : tid = mesh.id) :
    (∀ a : SubEditAction,
        (commitSelectionDeltaAsAction (applySelectionWorldDelta eng mesh d).1 tid).1 = some a →
        (applySubEditInverse (applySelectionWorldDelta eng mesh d).2 a).positions =
          mesh.positions)
    ∧ ((commitSelectionDeltaAsAction (applySelectionWorldDelta eng mesh d).1 tid).1 = none →
        ∀ i : Nat,
          |((applySelectionWorldDelta eng mesh d).2.positions.getD i Vec3.zero).x -
              (mesh.positions.getD i Vec3.zero).x| ≤ 1 / 1000000 ∧
          |((applySelectionWorldDelta eng mesh d).2.positions.getD i Vec3.zero).y -
              (mesh.positions.getD i Vec3.zero).y| ≤ 1 / 1000000 ∧
          |((applySelectionWorldDelta eng mesh d).2.positions.getD i Vec3.zero).z -
              (mesh.positions.getD i Vec3.zero).z| ≤ 1 / 1000000) := by
  have happ := applySelectionWorldDelta_of_nonempty eng mesh d hsel
  have hsel1 : (applySelectionWorldDelta eng mesh d).1.selection ≠ [] := by
    rw [happ]; simpa using hsel
  have hacc1 : (applySelectionWorldDelta eng mesh d).1.accDelta =
      worldDeltaToLocalDelta mesh d := by
    rw [happ]
    show eng.accDelta.add _ = _
    rw [hacc, Vec3.zero_add_left]
  have huniq1 : getUniqueSelectedIndices (applySelectionWorldDelta eng mesh d).1.selection =
      getUniqueSelectedIndices eng.selection := by
    rw [happ]
    exact getUniqueSelectedIndices_map_centroid _ _
  have hpos2 : (applySelectionWorldDelta eng mesh d).2.positions =
      applyDeltaLocalToIndices mesh.positions (getUniqueSelectedIndices eng.selection)
        (worldDeltaToLocalDelta mesh d) := by
    rw [happ]
  have hid2 : (applySelectionWorldDelta eng mesh d).2.id = mesh.id := by
    rw [happ]
  by_cases hsmall : (worldDeltaToLocalDelta mesh d).lengthSq < COMMIT_EPS_SQ
  · have hnone : (commitSelectionDeltaAsAction (applySelectionWorldDelta eng mesh d).1
        tid).1 = none :=
      commit_none_of_small _ _ (by rw [hacc1]; exact hsmall)
    constructor
    · intro a ha
      rw [hnone] at ha
      exact absurd ha (by simp)
    · intro _ i
      have hbound : |(worldDeltaToLocalDelta mesh d).x| ≤ 1 / 1000000 ∧
          |(worldDeltaToLocalDelta mesh d).y| ≤ 1 / 1000000 ∧
          |(worldDeltaToLocalDelta mesh d).z| ≤ 1 / 1000000 := by
        refine abs_comps_le_of_lengthSq_lt (by norm_num) ?_
        calc (worldDeltaToLocalDelta mesh d).lengthSq < COMMIT_EPS_SQ := hsmall
          _ = 1 / 1000000 * (1 / 1000000) := by norm_num [COMMIT_EPS_SQ]
      have hchar := applyDeltaLocalToIndices_getElem?
        (getUniqueSelectedIndices_nodup eng.selection) mesh.positions
        (worldDeltaToLocalDelta mesh d) i
      rw [hpos2, List.getD_eq_getElem?_getD, List.getD_eq_getElem?_getD, hchar]
      by_cases hi : i ∈ getUniqueSelectedIndices eng.selection
      · rw [if_pos hi]
        cases hcell : mesh.positions[i]? with
        | none => simp [hcell]
        | some p =>
            simp only [hcell, Option.map_some', Option.getD_some]
            have e1 : (p.add (worldDeltaToLocalDelta mesh d)).x - p.x =
                (worldDeltaToLocalDelta mesh d).x := by
              simp only [Vec3.add]; ring
            have e2 : (p.add (worldDeltaToLocalDelta mesh d)).y - p.y =
                (worldDeltaToLocalDelta mesh d).y := by
              simp only [Vec3.add]; ring
            have e3 : (p.add (worldDeltaToLocalDelta mesh d)).z - p.z =
                (worldDeltaToLocalDelta mesh d).z := by
              simp only [Vec3.add]; ring
            rw [e1, e2, e3]
            exact hbound
      · rw [if_neg hi]
        norm_num
  · have hsome := commit_some_of_truthy (applySelectionWorldDelta eng mesh d).1 tid htid
      hsel1 (by rw [hacc1]; exact hsmall)
    constructor
    · intro a ha
      rw [hsome] at ha
      simp only [Option.some.injEq] at ha
      subst ha
      unfold applySubEditInverse
      rw [if_pos (by rw [hid2]; exact hmid)]
      simp only
      rw [hpos2, hacc1, huniq1]
      exact applyDeltaLocalToIndices_cancel (getUniqueSelectedIndices_nodup _) _ _
    · intro hcontra
      rw [hsome] at hcontra
      exact absurd hcontra (by simp)

/-- Witness for C2 at the concrete state: selected group {0,1} of meshA,
world delta (1,0,0), committed under id 1 and inverted. -/
theorem c2_move_commit_undo_roundtrip_witness :
    (engB.selection ≠ [] ∧ engB.accDelta = Vec3.zero ∧ (1 : Nat) ≠ 0 ∧ 1 = meshA.id) ∧
    (∀ a : SubEditAction,
      (commitSelectionDeltaAsAction (applySelectionWorldDelta engB meshA ⟨1,0,0⟩).1 1).1 =
        some a →
      (applySubEditInverse (applySelectionWorldDelta engB meshA ⟨1,0,0⟩).2 a).positions =
        meshA.positions) := by
  refine ⟨⟨by simp [engB], rfl, one_ne_zero, rfl⟩, ?_⟩
  exact (c2_move_commit_undo_roundtrip engB meshA ⟨1,0,0⟩ 1 (by simp [engB]) rfl
    one_ne_zero rfl).1

/-! ## Claim C3: weld snap applies a single translation -/

theorem Vec3.sub_self (a : Vec3) : a.sub a = Vec3.zero := by
  simp [Vec3.sub, Vec3.zero]

theorem weldApplySnap_of_nonempty (eng : Engine) (mesh : Mesh) (target : Vec3)
    (h : eng.selection ≠ []) :
    weldApplySnap eng mesh target =
      ({ eng with
          selection := eng.selection.map (fun s =>
            { s with centroidLocal := (s.centroidLocal.add
                (target.sub (selectionCentroidClamped eng.selection))) })
          accDelta := eng.accDelta.add
            (target.sub (selectionCentroidClamped eng.selection)) },
       { mesh with positions := (applyDeltaLocalToIndices mesh.positions
          (getUniqueSelectedIndices eng.selection)
          (target.sub (selectionCentroidClamped eng.selection))) }) := by
  unfold weldApplySnap
  rw [if_neg (by simpa [List.isEmpty_iff] using h)]

theorem selectionCentroidClamped_eq (sel : List Entry) (h : sel ≠ []) :
    selectionCentroidClamped sel = selectionCentroid sel := by
  unfold selectionCentroidClamped selectionCentroid
  have hlen : 1 ≤ sel.length := List.length_pos.2 h
  rw [Nat.max_eq_right hlen]

/-- C3: for a non-empty selection, the weld snap translates the whole
selection by the single vector d from the selection's current centroid (the
mean of its entries' centroids, computed with the source's max(1,count)
guard, which equals the plain mean here) to the confirmed target: it adds d
to the position of every selected index exactly once, leaves other
positions alone, adds d to every entry's centroidLocal and to the
accumulated delta — the same update path as ordinary movement; and after
snapping onto a coincident target from a committed state, a subsequent
commit returns none for every target id. -/
theorem c3_weld_snap_translation (eng : Engine) (mesh : Mesh) (target : Vec3)
    (hsel : eng.selection ≠ []) :
    selectionCentroidClamped eng.selection = selectionCentroid eng.selection
    ∧ (weldApplySnap eng mesh target).1.selection =
        eng.selection.map (fun s =>
          { s with centroidLocal := (s.centroidLocal.add
              (target.sub (selectionCentroidClamped eng.selection))) })
    ∧ (weldApplySnap eng mesh target).1.accDelta =
        eng.accDelta.add (target.sub (selectionCentroidClamped eng.selection))
    ∧ (∀ i : Nat, i ∈ getUniqueSelectedIndices eng.selection →
        (weldApplySnap eng mesh target).2.positions[i]? =
          mesh.positions[i]?.map (fun p =>
            p.add (target.sub (selectionCentroidClamped eng.selection))))
    ∧ (∀ i : Nat, i ∉ getUniqueSelectedIndices eng.selection →
        (weldApplySnap eng mesh target).2.positions[i]? = mesh.positions[i]?)
    ∧ (eng.accDelta = Vec3.zero → target = selectionCentroidClamped eng.selection →
        ∀ tid : Nat, (commitSelectionDeltaAsAction (weldApplySnap eng mesh target).1
          tid).1 = none) := by
  have happ := weldApplySnap_of_nonempty eng mesh target hsel
  refine ⟨selectionCentroidClamped_eq _ hsel, by rw [happ], by rw [happ], ?_, ?_, ?_⟩
  · intro i hi
    rw [happ]
    show (applyDeltaLocalToIndices mesh.positions _ _)[i]? = _
    rw [applyDeltaLocalToIndices_getElem? (getUniqueSelectedIndices_nodup _), if_pos hi]
  · intro i hi
    rw [happ]
    show (applyDeltaLocalToIndices mesh.positions _ _)[i]? = _
    rw [applyDeltaLocalToIndices_getElem? (getUniqueSelectedIndices_nodup _), if_neg hi]
  · intro hacc htar tid
    have hd : target.sub (selectionCentroidClamped eng.selection) = Vec3.zero := by
      rw [htar]
      exact Vec3.sub_self _
    have hacc1 : (weldApplySnap eng mesh target).1.accDelta = Vec3.zero := by
      rw [happ]
      show eng.accDelta.add _ = _
      rw [hd, hacc, Vec3.zero_add_left]
    exact commit_none_of_small _ _
      (by rw [hacc1, Vec3.lengthSq_zero]; norm_num [COMMIT_EPS_SQ])

/-- Witness for C3 at the selected group {0,1} of meshA snapped onto the
coincident target (0,0,0): the subsequent commit returns none. -/
theorem c3_weld_snap_translation_witness :
    engB.selection ≠ [] ∧ engB.accDelta = Vec3.zero ∧
    (⟨0,0,0⟩ : Vec3) = selectionCentroidClamped engB.selection ∧
    (commitSelectionDeltaAsAction (weldApplySnap engB meshA ⟨0,0,0⟩).1 1).1 = none := by
  have h1 : engB.selection ≠ [] := by simp [engB]
  have h3 : (⟨0,0,0⟩ : Vec3) = selectionCentroidClamped engB.selection := by
    norm_num [engB, selectionCentroidClamped, Vec3.add, Vec3.zero, Vec3.smul]
  exact ⟨h1, rfl, h3,
    (c3_weld_snap_translation engB meshA ⟨0,0,0⟩ h1).2.2.2.2.2 rfl h3 1⟩

/-! ## Claim C7: the centroid-equals-mean invariant -/

theorem Vec3.smul_zero_left (d : Vec3) : Vec3.smul 0 d = Vec3.zero := by
  simp [Vec3.smul, Vec3.zero]

theorem foldl_addPos_shift (positions : List Vec3) (inds : List Nat) :
    ∀ c0 : Vec3, inds.foldl (fun c i => c.add (positions.getD i Vec3.zero)) c0 =
      c0.add (sumPositionsOver positions inds) := by
  induction inds with
  | nil => intro c0; simp [sumPositionsOver, Vec3.add_zero_right]
  | cons i rest ih =>
      intro c0
      have hs : sumPositionsOver positions (i :: rest) =
          (positions.getD i Vec3.zero).add (sumPositionsOver positions rest) := by
        show List.foldl _ Vec3.zero (i :: rest) = _
        rw [List.foldl_cons, ih, Vec3.zero_add_left]
      rw [List.foldl_cons, ih, hs, Vec3.add_assoc]

theorem sumPositionsOver_shift (positions positions' : List Vec3) (d : Vec3)
    (inds : List Nat)
    (h : ∀ i ∈ inds, positions'.getD i Vec3.zero = (positions.getD i Vec3.zero).add d) :
    sumPositionsOver positions' inds =
      (sumPositionsOver positions inds).add (Vec3.smul (inds.length : ℚ) d) := by
  induction inds with
  | nil =>
      show Vec3.zero = Vec3.zero.add (Vec3.smul ((0 : ℕ) : ℚ) d)
      rw [Nat.cast_zero, Vec3.smul_zero_left, Vec3.add_zero_right]
  | cons i rest ih =>
      have hs' : sumPositionsOver positions' (i :: rest) =
          (positions'.getD i Vec3.zero).add (sumPositionsOver positions' rest) := by
        show List.foldl _ Vec3.zero (i :: rest) = _
        rw [List.foldl_cons, foldl_addPos_shift, Vec3.zero_add_left]
      have hsp : sumPositionsOver positions (i :: rest) =
          (positions.getD i Vec3.zero).add (sumPositionsOver positions rest) := by
        show List.foldl _ Vec3.zero (i :: rest) = _
        rw [List.foldl_cons, foldl_addPos_shift, Vec3.zero_add_left]
      rw [hs', hsp, h i (List.mem_cons_self ..),
        ih (fun j hj => h j (List.mem_cons_of_mem _ hj))]
      simp only [Vec3.add, Vec3.smul, Vec3.mk.injEq, List.length_cons, Nat.cast_add,
        Nat.cast_one]
      refine ⟨by ring, by ring, by ring⟩

theorem centroidLocalFromIndices_shift (positions positions' : List Vec3) (d : Vec3)
    (inds : List Nat) (hne : inds ≠ [])
    (h : ∀ i ∈ inds, positions'.getD i Vec3.zero = (positions.getD i Vec3.zero).add d) :
    centroidLocalFromIndices positions' inds =
      (centroidLocalFromIndices positions inds).add d := by
  unfold centroidLocalFromIndices
  rw [show (inds.foldl (fun c i => c.add (positions'.getD i Vec3.zero)) Vec3.zero) =
        sumPositionsOver positions' inds from rfl,
    show (inds.foldl (fun c i => c.add (positions.getD i Vec3.zero)) Vec3.zero) =
        sumPositionsOver positions inds from rfl,
    sumPositionsOver_shift positions positions' d inds h]
  have hlen : 1 ≤ inds.length := List.length_pos.2 hne
  rw [Nat.max_eq_right hlen]
  have hn0 : (inds.length : ℚ) ≠ 0 := Nat.cast_ne_zero.2 (by omega)
  simp only [Vec3.smul, Vec3.add, Vec3.mk.injEq]
  refine ⟨?_, ?_, ?_⟩ <;> (field_simp; ring)

theorem centroidLocalFromIndices_eq_mean (positions : List Vec3) (inds : List Nat)
    (hne : inds ≠ []) :
    centroidLocalFromIndices positions inds =
      Vec3.smul (1 / (inds.length : ℚ)) (sumPositionsOver positions inds) := by
  unfold centroidLocalFromIndices
  rw [Nat.max_eq_right (List.length_pos.2 hne)]
  rfl

theorem mem_toggleEntryByKey {sel : List Entry} {ent s : Entry}
    (h : s ∈ toggleEntryByKey sel ent) : s ∈ sel ∨ s = ent := by
  unfold toggleEntryByKey at h
  split at h
  · exact Or.inl (List.eraseP_subset _ h)
  · rcases List.mem_append.1 h with h | h
    · exact Or.inl h
    · exact Or.inr (List.mem_singleton.1 h)

theorem centroidOk_togglePickVertex (eng : Engine) (mesh : Mesh) (idx : Nat)
    (hok : centroidOk eng mesh) : centroidOk (togglePickVertex eng mesh idx) mesh := by
  intro s hs
  rw [togglePickVertex_selection] at hs
  split at hs
  · rcases mem_toggleEntryByKey hs with h | rfl
    · exact hok s (by rwa [refreshBaselineForPick_selection] at h)
    · rfl
  · exact hok s (by rwa [refreshBaselineForPick_selection] at hs)

theorem centroidOk_togglePickEdge (eng : Engine) (mesh : Mesh) (pair : Nat × Nat)
    (hok : centroidOk eng mesh) : centroidOk (togglePickEdge eng mesh pair) mesh := by
  intro s hs
  rw [togglePickEdge_selection] at hs
  split at hs
  · rcases mem_toggleEntryByKey hs with h | rfl
    · exact hok s (by rwa [refreshBaselineForPick_selection] at h)
    · rfl
  · exact hok s (by rwa [refreshBaselineForPick_selection] at hs)

theorem centroidOk_togglePickFace (eng : Engine) (mesh : Mesh) (tri : Nat × Nat × Nat)
    (hok : centroidOk eng mesh) : centroidOk (togglePickFace eng mesh tri) mesh := by
  intro s hs
  rw [togglePickFace_selection] at hs
  split at hs
  · rcases mem_toggleEntryByKey hs with h | rfl
    · exact hok s (by rwa [refreshBaselineForPick_selection] at h)
    · rfl
  · exact hok s (by rwa [refreshBaselineForPick_selection] at hs)

theorem centroidOk_after_shift (sel : List Entry) (positions : List Vec3) (d : Vec3)
    (hne : ∀ s ∈ sel, s.indices ≠ [])
    (hrange : ∀ s ∈ sel, ∀ i ∈ s.indices, i < positions.length)
    (hok : ∀ s ∈ sel, s.centroidLocal = centroidLocalFromIndices positions s.indices) :
    ∀ s' ∈ sel.map (fun s => { s with centroidLocal := s.centroidLocal.add d }),
      s'.centroidLocal = centroidLocalFromIndices
        (applyDeltaLocalToIndices positions (getUniqueSelectedIndices sel) d)
        s'.indices := by
  intro s' hs'
  obtain ⟨s, hs, rfl⟩ := List.mem_map.1 hs'
  show s.centroidLocal.add d = _
  rw [hok s hs]
  refine (centroidLocalFromIndices_shift positions _ d s.indices (hne s hs) ?_).symm
  intro i hi
  have hiu : i ∈ getUniqueSelectedIndices sel :=
    (mem_getUniqueSelectedIndices sel i).2 ⟨s, hs, hi⟩
  have hilen : i < positions.length := hrange s hs i hi
  have hchar := applyDeltaLocalToIndices_getElem? (getUniqueSelectedIndices_nodup sel)
    positions d i
  rw [List.getD_eq_getElem?_getD, List.getD_eq_getElem?_getD, hchar, if_pos hiu,
    List.getElem?_eq_getElem hilen]
  rfl

/-- C7 (amended): every entry's centroid equals the arithmetic mean of its
indices' positions immediately after creation (all three pick kinds), and
the equality is preserved — by adding the same delta rather than
recomputing — through the selection-aware position mutations, namely
ordinary movement and the weld snap (for entries with non-empty, in-range
index lists).  Undo/redo replay is not centroid-preserving: it updates
positions only (see the counterexample). -/
theorem c7_centroid_invariant (eng : Engine) (mesh : Mesh) :
    (∀ (positions : List Vec3) (inds : List Nat), inds ≠ [] →
      centroidLocalFromIndices positions inds =
        Vec3.smul (1 / (inds.length : ℚ)) (sumPositionsOver positions inds))
    ∧ (∀ idx : Nat, centroidOk eng mesh → centroidOk (togglePickVertex eng mesh idx) mesh)
    ∧ (∀ pair : Nat × Nat, centroidOk eng mesh →
        centroidOk (togglePickEdge eng mesh pair) mesh)
    ∧ (∀ tri : Nat × Nat × Nat, centroidOk eng mesh →
        centroidOk (togglePickFace eng mesh tri) mesh)
    ∧ (∀ d : Vec3,
        (∀ s ∈ eng.selection, s.indices ≠ []) →
        (∀ s ∈ eng.selection, ∀ i ∈ s.indices, i < mesh.positions.length) →
        centroidOk eng mesh →
        centroidOk (applySelectionWorldDelta eng mesh d).1
          (applySelectionWorldDelta eng mesh d).2)
    ∧ (∀ target : Vec3,
        (∀ s ∈ eng.selection, s.indices ≠ []) →
        (∀ s ∈ eng.selection, ∀ i ∈ s.indices, i < mesh.positions.length) →
        centroidOk eng mesh →
        centroidOk (weldApplySnap eng mesh target).1 (weldApplySnap eng mesh target).2) := by
  refine ⟨centroidLocalFromIndices_eq_mean,
    fun idx => centroidOk_togglePickVertex eng mesh idx,
    fun pair => centroidOk_togglePickEdge eng mesh pair,
    fun tri => centroidOk_togglePickFace eng mesh tri, ?_, ?_⟩
  · intro d hne hrange hok
    by_cases hsel : eng.selection = []
    · rw [applySelectionWorldDelta_of_empty eng mesh d hsel]
      exact hok
    · have happ := applySelectionWorldDelta_of_nonempty eng mesh d hsel
      intro s' hs'
      rw [happ] at hs' ⊢
      exact centroidOk_after_shift eng.selection mesh.positions
        (worldDeltaToLocalDelta mesh d) hne hrange hok s' hs'
  · intro target hne hrange hok
    by_cases hsel : eng.selection = []
    · unfold weldApplySnap
      rw [if_pos (by simpa [List.isEmpty_iff] using hsel)]
      exact hok
    · have happ := weldApplySnap_of_nonempty eng mesh target hsel
      intro s' hs'
      rw [happ] at hs' ⊢
      exact centroidOk_after_shift eng.selection mesh.positions
        (target.sub (selectionCentroidClamped eng.selection)) hne hrange hok s' hs'

/-- Witness for C7 (amended) at the concrete selected state engB moved by
(1,0,0): the invariant holds before and after the move. -/
theorem c7_centroid_invariant_witness :
    ((∀ s ∈ engB.selection, s.indices ≠ []) ∧
     (∀ s ∈ engB.selection, ∀ i ∈ s.indices, i < meshA.positions.length) ∧
     centroidOk engB meshA) ∧
    centroidOk (applySelectionWorldDelta engB meshA ⟨1,0,0⟩).1
      (applySelectionWorldDelta engB meshA ⟨1,0,0⟩).2 := by
  have h1 : ∀ s ∈ engB.selection, s.indices ≠ [] := by
    intro s hs
    simp only [engB, List.mem_singleton] at hs
    subst hs
    simp
  have h2 : ∀ s ∈ engB.selection, ∀ i ∈ s.indices, i < meshA.positions.length := by
    intro s hs
    simp only [engB, List.mem_singleton] at hs
    subst hs
    intro i hi
    rcases List.mem_cons.1 hi with rfl | hi
    · simp [meshA]
    · rcases List.mem_singleton.1 hi with rfl
      simp [meshA]
  have h3 : centroidOk engB meshA := by
    intro s hs
    simp only [engB, List.mem_singleton] at hs
    subst hs
    show (⟨0,0,0⟩ : Vec3) = _
    norm_num [centroidLocalFromIndices, meshA, Vec3.add, Vec3.zero, Vec3.smul]
  exact ⟨⟨h1, h2, h3⟩,
    (c7_centroid_invariant engB meshA).2.2.2.2.1 ⟨1,0,0⟩ h1 h2 h3⟩

/-- Counterexample to C7 as stated: undo/redo replay mutates positions
without touching centroids.  The entry covering vertices 0,1 of meshA has
a correct centroid; replaying the inverse of the action that moved them by
(1,0,0) shifts the positions to (-1,0,0) but leaves the stored centroid at
(0,0,0), breaking the equality. -/
theorem c7_centroid_replay_counterexample :
    centroidOk engE meshA ∧ ¬ centroidOk engE (applySubEditInverse meshA actE) := by
  constructor
  · intro s hs
    simp only [engE, List.mem_singleton] at hs
    subst hs
    show (⟨0,0,0⟩ : Vec3) = _
    norm_num [centroidLocalFromIndices, meshA, Vec3.add, Vec3.zero, Vec3.smul]
  · intro h
    have hmem : (⟨EKind.v, SelKey.vert (GroupKey.quantized (0,0,0)), [0,1],
        ⟨0,0,0⟩⟩ : Entry) ∈ engE.selection := by simp [engE]
    have := h _ hmem
    norm_num [centroidLocalFromIndices, applySubEditInverse, applyDeltaLocalToIndices,
      actE, meshA, Vec3.add, Vec3.neg, Vec3.zero, Vec3.smul] at this

/-! ## Claims C5 and C6: the weld search -/

theorem mapPush_nil (k : ℤ × ℤ × ℤ) (i : Nat) : mapPush [] k i = [(k, [i])] := rfl

theorem mapPush_cons (k0 : ℤ × ℤ × ℤ) (l0 : List Nat)
    (rest : List ((ℤ × ℤ × ℤ) × List Nat)) (k : ℤ × ℤ × ℤ) (i : Nat) :
    mapPush ((k0, l0) :: rest) k i =
      if k0 = k then (k0, l0 ++ [i]) :: rest else (k0, l0) :: mapPush rest k i := rfl

theorem mem_mapPush_keys {m : List ((ℤ × ℤ × ℤ) × List Nat)} {k : ℤ × ℤ × ℤ} {i : Nat} :
    ∀ g2 ∈ mapPush m k i, g2.1 ∈ m.map Prod.fst ∨ g2.1 = k := by
  induction m with
  | nil =>
      intro g2 hg2
      rw [mapPush_nil] at hg2
      rcases List.mem_singleton.1 hg2 with rfl
      exact Or.inr rfl
  | cons g rest ih =>
      intro g2 hg2
      obtain ⟨k0, l0⟩ := g
      rw [mapPush_cons] at hg2
      split at hg2
      · rcases List.mem_cons.1 hg2 with rfl | hg2
        · exact Or.inl (by simp)
        · exact Or.inl (by
            simp only [List.map_cons, List.mem_cons]
            exact Or.inr (List.mem_map.2 ⟨g2, hg2, rfl⟩))
      · rcases List.mem_cons.1 hg2 with rfl | hg2
        · exact Or.inl (by simp)
        · rcases ih g2 hg2 with h2 | h2
          · exact Or.inl (by
              simp only [List.map_cons, List.mem_cons]
              exact Or.inr h2)
          · exact Or.inr h2

theorem mapPush_keys_nodup {m : List ((ℤ × ℤ × ℤ) × List Nat)} {k : ℤ × ℤ × ℤ} {i : Nat}
    (h : (m.map Prod.fst).Nodup) : ((mapPush m k i).map Prod.fst).Nodup := by
  induction m with
  | nil => simp [mapPush_nil]
  | cons g rest ih =>
      obtain ⟨k0, l0⟩ := g
      rw [mapPush_cons]
      split
      · simpa using h
      · next hk =>
          simp only [List.map_cons, List.nodup_cons] at h ⊢
          refine ⟨?_, ih h.2⟩
          intro hmem
          rcases List.mem_map.1 hmem with ⟨g2, hg2, hfst⟩
          rcases mem_mapPush_keys g2 hg2 with h2 | h2
          · exact h.1 (hfst ▸ h2)
          · exact hk (hfst ▸ h2)

theorem buildVertexGroups_keys_nodup (positions : List Vec3) :
    ((buildVertexGroups positions).map Prod.fst).Nodup := by
  unfold buildVertexGroups
  generalize positions.enum = l
  have main : ∀ (l : List (Nat × Vec3)) (acc : List ((ℤ × ℤ × ℤ) × List Nat)),
      (acc.map Prod.fst).Nodup →
      ((l.foldl (fun m p => mapPush m (keyForPos p.2.x p.2.y p.2.z) p.1) acc).map
        Prod.fst).Nodup := by
    intro l
    induction l with
    | nil => exact fun acc h => h
    | cons p rest ih => exact fun acc h => ih _ (mapPush_keys_nodup h)
  exact main l [] (by simp)

theorem mapGet_eq_some_of_mem {m : List ((ℤ × ℤ × ℤ) × List Nat)} {k : ℤ × ℤ × ℤ}
    {l : List Nat} (hnd : (m.map Prod.fst).Nodup) (hmem : (k, l) ∈ m) :
    mapGet m k = some l := by
  induction m with
  | nil => cases hmem
  | cons g rest ih =>
      obtain ⟨k0, l0⟩ := g
      simp only [List.map_cons, List.nodup_cons] at hnd
      have hstep : mapGet ((k0, l0) :: rest) k =
          if k0 = k then some l0 else mapGet rest k := rfl
      rcases List.mem_cons.1 hmem with heq | hmem2
      · obtain ⟨rfl, rfl⟩ : k0 = k ∧ l0 = l := by
          simpa [Prod.ext_iff] using heq.symm
        rw [hstep, if_pos rfl]
      · by_cases hk : k0 = k
        · exfalso
          subst hk
          exact hnd.1 (List.mem_map.2 ⟨(k0, l), hmem2, rfl⟩)
        · rw [hstep, if_neg hk]
          exact ih hnd.2 hmem2

theorem weldScan_nil (positions : List Vec3) (selSet : List Nat) (selCenter : Vec3)
    (best : Option ((ℤ × ℤ × ℤ) × Vec3 × ℚ)) :
    weldScan positions selSet selCenter [] best = best := rfl

theorem weldScan_cons (positions : List Vec3) (selSet : List Nat) (selCenter : Vec3)
    (kg : ℤ × ℤ × ℤ) (inds : List Nat) (rest : List ((ℤ × ℤ × ℤ) × List Nat))
    (best : Option ((ℤ × ℤ × ℤ) × Vec3 × ℚ)) :
    weldScan positions selSet selCenter ((kg, inds) :: rest) best =
      if inds.any (fun i => decide (i ∈ selSet)) then
        weldScan positions selSet selCenter rest best
      else
        match best with
        | none =>
            weldScan positions selSet selCenter rest
              (some (kg, positions.getD (inds.headD 0) Vec3.zero,
                Vec3.distSq (positions.getD (inds.headD 0) Vec3.zero) selCenter))
        | some b =>
            if Vec3.distSq (positions.getD (inds.headD 0) Vec3.zero) selCenter < b.2.2 then
              weldScan positions selSet selCenter rest
                (some (kg, positions.getD (inds.headD 0) Vec3.zero,
                  Vec3.distSq (positions.getD (inds.headD 0) Vec3.zero) selCenter))
            else weldScan positions selSet selCenter rest (some b) := rfl

theorem weldScan_some_shape (positions : List Vec3) (selSet : List Nat) (selCenter : Vec3) :
    ∀ (gs : List ((ℤ × ℤ × ℤ) × List Nat)) (best : Option ((ℤ × ℤ × ℤ) × Vec3 × ℚ))
      (k : ℤ × ℤ × ℤ) (p : Vec3) (dq : ℚ),
      weldScan positions selSet selCenter gs best = some (k, p, dq) →
      best = some (k, p, dq) ∨
        ∃ inds : List Nat, (k, inds) ∈ gs ∧
          (inds.any (fun i => decide (i ∈ selSet))) = false ∧
          p = positions.getD (inds.headD 0) Vec3.zero ∧
          dq = Vec3.distSq p selCenter := by
  intro gs
  induction gs with
  | nil =>
      intro best k p dq h
      rw [weldScan_nil] at h
      exact Or.inl h
  | cons g rest ih =>
      intro best k p dq h
      obtain ⟨kg, inds⟩ := g
      rw [weldScan_cons] at h
      split at h
      · next hskip =>
          rcases ih best k p dq h with h2 | ⟨inds2, hm, hrest⟩
          · exact Or.inl h2
          · exact Or.inr ⟨inds2, List.mem_cons_of_mem _ hm, hrest⟩
      · next hskip =>
          have hskipf : (inds.any (fun i => decide (i ∈ selSet))) = false := by
            simpa using hskip
          split at h
          · rcases ih _ k p dq h with h2 | ⟨inds2, hm, hrest⟩
            · simp only [Option.some.injEq, Prod.mk.injEq] at h2
              obtain ⟨rfl, rfl, rfl⟩ := h2
              exact Or.inr ⟨inds, List.mem_cons_self .., hskipf, rfl, rfl⟩
            · exact Or.inr ⟨inds2, List.mem_cons_of_mem _ hm, hrest⟩
          · next b =>
              split at h
              · rcases ih _ k p dq h with h2 | ⟨inds2, hm, hrest⟩
                · simp only [Option.some.injEq, Prod.mk.injEq] at h2
                  obtain ⟨rfl, rfl, rfl⟩ := h2
                  exact Or.inr ⟨inds, List.mem_cons_self .., hskipf, rfl, rfl⟩
                · exact Or.inr ⟨inds2, List.mem_cons_of_mem _ hm, hrest⟩
              · rcases ih _ k p dq h with h2 | ⟨inds2, hm, hrest⟩
                · exact Or.inl h2
                · exact Or.inr ⟨inds2, List.mem_cons_of_mem _ hm, hrest⟩

theorem weldScan_min (positions : List Vec3) (selSet : List Nat) (selCenter : Vec3) :
    ∀ (gs : List ((ℤ × ℤ × ℤ) × List Nat)) (best : Option ((ℤ × ℤ × ℤ) × Vec3 × ℚ))
      (k : ℤ × ℤ × ℤ) (p : Vec3) (dq : ℚ),
      weldScan positions selSet selCenter gs best = some (k, p, dq) →
      (∀ b : (ℤ × ℤ × ℤ) × Vec3 × ℚ, best = some b → dq ≤ b.2.2) ∧
      (∀ (kg : ℤ × ℤ × ℤ) (inds : List Nat), (kg, inds) ∈ gs →
        (inds.any (fun i => decide (i ∈ selSet))) = false →
        dq ≤ Vec3.distSq (positions.getD (inds.headD 0) Vec3.zero) selCenter) := by
  intro gs
  induction gs with
  | nil =>
      intro best k p dq h
      rw [weldScan_nil] at h
      refine ⟨?_, by simp⟩
      intro b hb
      rw [hb] at h
      have hh : b = (k, p, dq) := by
        simpa using h
      rw [hh]
  | cons g rest ih =>
      intro best k p dq h
      obtain ⟨kg0, inds0⟩ := g
      rw [weldScan_cons] at h
      split at h
      · next hskip =>
          obtain ⟨hbest, hall⟩ := ih best k p dq h
          refine ⟨hbest, ?_⟩
          intro kg inds hmem hdisj
          rcases List.mem_cons.1 hmem with heq | hmem2
          · obtain ⟨rfl, rfl⟩ : kg0 = kg ∧ inds0 = inds := by
              simpa [Prod.mk.injEq] using heq.symm
            rw [hdisj] at hskip
            cases hskip
          · exact hall kg inds hmem2 hdisj
      · next hskip =>
          split at h
          · obtain ⟨hbest, hall⟩ := ih _ k p dq h
            have hdq0 : dq ≤ Vec3.distSq (positions.getD (inds0.headD 0) Vec3.zero)
                selCenter := hbest _ rfl
            refine ⟨(by intro b hb; cases hb), ?_⟩
            intro kg inds hmem hdisj
            rcases List.mem_cons.1 hmem with heq | hmem2
            · obtain ⟨rfl, rfl⟩ : kg0 = kg ∧ inds0 = inds := by
                simpa [Prod.mk.injEq] using heq.symm
              exact hdq0
            · exact hall kg inds hmem2 hdisj
          · next b =>
              split at h
              · next hlt =>
                  obtain ⟨hbest, hall⟩ := ih _ k p dq h
                  have hdq0 : dq ≤ Vec3.distSq (positions.getD (inds0.headD 0) Vec3.zero)
                      selCenter := hbest _ rfl
                  refine ⟨?_, ?_⟩
                  · intro b2 hb2
                    simp only [Option.some.injEq] at hb2
                    subst hb2
                    exact le_of_lt (lt_of_le_of_lt hdq0 hlt)
                  · intro kg inds hmem hdisj
                    rcases List.mem_cons.1 hmem with heq | hmem2
                    · obtain ⟨rfl, rfl⟩ : kg0 = kg ∧ inds0 = inds := by
                        simpa [Prod.mk.injEq] using heq.symm
                      exact hdq0
                    · exact hall kg inds hmem2 hdisj
              · next hnlt =>
                  obtain ⟨hbest, hall⟩ := ih _ k p dq h
                  have hdqb : dq ≤ b.2.2 := hbest _ rfl
                  refine ⟨?_, ?_⟩
                  · intro b2 hb2
                    simp only [Option.some.injEq] at hb2
                    subst hb2
                    exact hdqb
                  · intro kg inds hmem hdisj
                    rcases List.mem_cons.1 hmem with heq | hmem2
                    · obtain ⟨rfl, rfl⟩ : kg0 = kg ∧ inds0 = inds := by
                        simpa [Prod.mk.injEq] using heq.symm
                      exact le_trans hdqb (not_lt.1 hnlt)
                    · exact hall kg inds hmem2 hdisj

theorem weldScan_none_shape (positions : List Vec3) (selSet : List Nat) (selCenter : Vec3) :
    ∀ (gs : List ((ℤ × ℤ × ℤ) × List Nat)) (best : Option ((ℤ × ℤ × ℤ) × Vec3 × ℚ)),
      weldScan positions selSet selCenter gs best = none →
      best = none ∧ ∀ (kg : ℤ × ℤ × ℤ) (inds : List Nat), (kg, inds) ∈ gs →
        (inds.any (fun i => decide (i ∈ selSet))) = true := by
  intro gs
  induction gs with
  | nil =>
      intro best h
      rw [weldScan_nil] at h
      exact ⟨h, by simp⟩
  | cons g rest ih =>
      intro best h
      obtain ⟨kg0, inds0⟩ := g
      rw [weldScan_cons] at h
      split at h
      · next hskip =>
          obtain ⟨hbest, hall⟩ := ih best h
          refine ⟨hbest, ?_⟩
          intro kg inds hmem
          rcases List.mem_cons.1 hmem with heq | hmem2
          · obtain ⟨rfl, rfl⟩ : kg0 = kg ∧ inds0 = inds := by
              simpa [Prod.mk.injEq] using heq.symm
            exact hskip
          · exact hall kg inds hmem2
      · split at h
        · exact absurd (ih _ h).1 (by simp)
        · split at h
          · exact absurd (ih _ h).1 (by simp)
          · exact absurd (ih _ h).1 (by simp)

/-- C5 (amended): a candidate returned by the deployed centroid-based weld
search references a target group that shares no vertex index with the
selection: looking the candidate's key up in the freshly built group map
yields a bucket disjoint from the selected index set.  (The pairwise
checkWeld variant of editor-subcomponents.js does not have this property:
see the counterexample.) -/
theorem c5_weld_candidate_exclusive (eng : Engine) (mesh : Mesh) (radius : ℚ)
    (c : WeldCandidate) (h : weldFindCandidate eng mesh radius = some c) :
    ∀ inds : List Nat,
      mapGet (buildVertexGroups mesh.positions) c.targetKey = some inds →
      ∀ i ∈ inds, i ∉ getUniqueSelectedIndices eng.selection := by
  unfold weldFindCandidate at h
  by_cases hcond : (eng.selection.isEmpty || eng.flags.explode) = true
  · rw [if_pos hcond] at h
    cases h
  · rw [if_neg hcond] at h
    dsimp only at h
    cases hscan : weldScan mesh.positions (getUniqueSelectedIndices eng.selection)
        (selectionCentroid eng.selection) (buildVertexGroups mesh.positions) none with
    | none =>
        rw [hscan] at h
        cases h
    | some trip =>
        obtain ⟨k, p, dq⟩ := trip
        rw [hscan] at h
        dsimp only at h
        split at h
        · cases h
        · have hc : c = ⟨k, p, dq⟩ := by
            simpa using h.symm
          rcases weldScan_some_shape mesh.positions _ _ _ none k p dq hscan with
            h2 | ⟨inds0, hmem, hdisj, _, _⟩
          · cases h2
          · intro inds hget i hi
            have hget0 : mapGet (buildVertexGroups mesh.positions) k = some inds0 :=
              mapGet_eq_some_of_mem (buildVertexGroups_keys_nodup _) hmem
            rw [hc] at hget
            have hinds : inds = inds0 := by
              rw [hget] at hget0
              simpa using hget0
            subst hinds
            have hnot := List.any_eq_false.1 hdisj i hi
            simpa using hnot

/-- Witness for C5 (amended) at a concrete candidate: selecting {0,1} at
the origin of meshNear makes the singleton group of vertex 2 at (0.2,0,0)
the returned target, and it is disjoint from the selection. -/
theorem c5_weld_candidate_exclusive_witness :
    weldFindCandidate engB meshNear DEFAULT_WELD_RADIUS =
      some ⟨(2000, 0, 0), ⟨1/5, 0, 0⟩, 1/25⟩ ∧
    mapGet (buildVertexGroups meshNear.positions) (2000, 0, 0) = some [2] ∧
    ∀ i ∈ [2], i ∉ getUniqueSelectedIndices engB.selection := by
  have h1 : weldFindCandidate engB meshNear DEFAULT_WELD_RADIUS =
      some ⟨(2000, 0, 0), ⟨1/5, 0, 0⟩, 1/25⟩ := by
    norm_num [weldFindCandidate, engB, meshNear, flagsDefault, buildVertexGroups,
      mapPush, keyForPos, jsRound, GROUP_EPS, selectionCentroid,
      getUniqueSelectedIndices, jsSetAdd, weldScan, Vec3.distSq, Vec3.sub,
      Vec3.lengthSq, Vec3.add, Vec3.zero, Vec3.smul, DEFAULT_WELD_RADIUS, List.enum,
      meshA]
  have h2 : mapGet (buildVertexGroups meshNear.positions) (2000, 0, 0) = some [2] := by
    norm_num [buildVertexGroups, meshNear, mapPush, mapGet, keyForPos, jsRound,
      GROUP_EPS, List.enum]
    decide
  exact ⟨h1, h2, fun i hi =>
    c5_weld_candidate_exclusive engB meshNear DEFAULT_WELD_RADIUS _ h1 [2] h2 i hi⟩

/-- Counterexample to C5 as stated: the pairwise weld search checkWeld of
editor-subcomponents.js, also cited by the claim, returns a candidate
whose target group [1,2] contains the selected index 1.  The state is
reached by selecting the two separate single-vertex groups {0} and {1} and
dragging them by (0.1,0,0), which lands vertex 1 on the unselected vertex
2; the scan only skips selected indices as scan targets, then returns the
whole quantized group of the hit vertex. -/
theorem c5_checkWeld_counterexample :
    checkWeld cexEng cexMesh = some cexInfo ∧
    (1 : Nat) ∈ cexInfo.targetIndices ∧
    (1 : Nat) ∈ getUniqueSelectedIndices cexEng.selection := by
  refine ⟨?_, by norm_num [cexInfo], ?_⟩
  · norm_num [checkWeld, cexEng, cexMesh, cexInfo, flagsDefault, hasSelection,
      getUniqueSelectedIndices, jsSetAdd, buildVertexGroups, mapPush, mapGet,
      keyForPos, jsRound, GROUP_EPS, List.enum, List.range_succ,
      List.findSome?, Vec3.distSq, Vec3.sub, Vec3.lengthSq, Vec3.zero]
  · norm_num [cexEng, getUniqueSelectedIndices, jsSetAdd, flagsDefault]

/-- C6: the deployed weld search returns none whenever the selection is
empty or explode mode is active; a returned candidate always comes from a
group disjoint from the selected index set, carries the position of that
group's first vertex and its (squared) distance to the selection centroid,
minimal among all disjoint groups and within the radius 0.28 (squared);
and when it returns none in merge mode with a selection, every disjoint
group lies strictly beyond the radius. -/
theorem c6_weld_search_characterization (eng : Engine) (mesh : Mesh) :
    ((eng.selection = [] ∨ eng.flags.explode = true) →
      weldFindCandidate eng mesh DEFAULT_WELD_RADIUS = none)
    ∧ (∀ c : WeldCandidate, weldFindCandidate eng mesh DEFAULT_WELD_RADIUS = some c →
        (∃ inds : List Nat, (c.targetKey, inds) ∈ buildVertexGroups mesh.positions ∧
          (∀ i ∈ inds, i ∉ getUniqueSelectedIndices eng.selection) ∧
          c.targetPosLocal = mesh.positions.getD (inds.headD 0) Vec3.zero ∧
          c.distSq = Vec3.distSq c.targetPosLocal (selectionCentroid eng.selection))
        ∧ (∀ (k : ℤ × ℤ × ℤ) (inds : List Nat),
            (k, inds) ∈ buildVertexGroups mesh.positions →
            (∀ i ∈ inds, i ∉ getUniqueSelectedIndices eng.selection) →
            c.distSq ≤ Vec3.distSq (mesh.positions.getD (inds.headD 0) Vec3.zero)
              (selectionCentroid eng.selection))
        ∧ c.distSq ≤ DEFAULT_WELD_RADIUS * DEFAULT_WELD_RADIUS)
    ∧ (eng.selection ≠ [] → eng.flags.explode = false →
        weldFindCandidate eng mesh DEFAULT_WELD_RADIUS = none →
        ∀ (k : ℤ × ℤ × ℤ) (inds : List Nat),
          (k, inds) ∈ buildVertexGroups mesh.positions →
          (∀ i ∈ inds, i ∉ getUniqueSelectedIndices eng.selection) →
          DEFAULT_WELD_RADIUS * DEFAULT_WELD_RADIUS <
            Vec3.distSq (mesh.positions.getD (inds.headD 0) Vec3.zero)
              (selectionCentroid eng.selection)) := by
  refine ⟨?_, ?_, ?_⟩
  · intro hdeg
    unfold weldFindCandidate
    rw [if_pos ?_]
    rcases hdeg with h | h
    · simp [List.isEmpty_iff, h]
    · simp [h]
  · intro c h
    unfold weldFindCandidate at h
    by_cases hcond : (eng.selection.isEmpty || eng.flags.explode) = true
    · rw [if_pos hcond] at h
      cases h
    · rw [if_neg hcond] at h
      dsimp only at h
      cases hscan : weldScan mesh.positions (getUniqueSelectedIndices eng.selection)
          (selectionCentroid eng.selection) (buildVertexGroups mesh.positions) none with
      | none =>
          rw [hscan] at h
          cases h
      | some trip =>
          obtain ⟨k, p, dq⟩ := trip
          rw [hscan] at h
          dsimp only at h
          split at h
          · cases h
          · next hnr =>
              have hc : c = ⟨k, p, dq⟩ := by
                simpa using h.symm
              subst hc
              rcases weldScan_some_shape mesh.positions _ _ _ none k p dq hscan with
                h2 | ⟨inds0, hmem, hdisj, hp, hdq⟩
              · cases h2
              · obtain ⟨_, hall⟩ := weldScan_min mesh.positions _ _ _ none k p dq hscan
                refine ⟨⟨inds0, hmem, ?_, hp, by rw [hdq, hp]⟩, ?_, not_lt.1 hnr⟩
                · intro i hi
                  have hnot := List.any_eq_false.1 hdisj i hi
                  simpa using hnot
                · intro k2 inds2 hmem2 hdisj2
                  refine hall k2 inds2 hmem2 ?_
                  rw [List.any_eq_false]
                  intro j hj
                  simpa using hdisj2 j hj
  · intro hsel hexp hnone k inds hmem hdisj
    unfold weldFindCandidate at hnone
    rw [if_neg (by simp [List.isEmpty_iff, hsel, hexp])] at hnone
    dsimp only at hnone
    cases hscan : weldScan mesh.positions (getUniqueSelectedIndices eng.selection)
        (selectionCentroid eng.selection) (buildVertexGroups mesh.positions) none with
    | none =>
        obtain ⟨_, hall⟩ := weldScan_none_shape mesh.positions _ _ _ none hscan
        have hany := hall k inds hmem
        rw [List.any_eq_true] at hany
        obtain ⟨i, hi, hdec⟩ := hany
        exact absurd (of_decide_eq_true hdec) (hdisj i hi)
    | some trip =>
        obtain ⟨k0, p0, dq0⟩ := trip
        rw [hscan] at hnone
        dsimp only at hnone
        split at hnone
        · next hgt =>
            obtain ⟨_, hall⟩ := weldScan_min mesh.positions _ _ _ none k0 p0 dq0 hscan
            have hle : dq0 ≤ Vec3.distSq (mesh.positions.getD (inds.headD 0) Vec3.zero)
                (selectionCentroid eng.selection) := by
              refine hall k inds hmem ?_
              rw [List.any_eq_false]
              intro j hj
              simpa using hdisj j hj
            exact lt_of_lt_of_le hgt hle
        · cases hnone

/-- Witness for C6: an empty selection yields none, and at the concrete
state (engB, meshNear) the candidate's properties are exhibited. -/
theorem c6_weld_search_characterization_witness :
    engEmpty.selection = [] ∧
    weldFindCandidate engEmpty meshA DEFAULT_WELD_RADIUS = none ∧
    (⟨(2000, 0, 0), ⟨1/5, 0, 0⟩, 1/25⟩ : WeldCandidate).distSq ≤
      DEFAULT_WELD_RADIUS * DEFAULT_WELD_RADIUS := by
  refine ⟨rfl, (c6_weld_search_characterization engEmpty meshA).1 (Or.inl rfl), ?_⟩
  have h1 : weldFindCandidate engB meshNear DEFAULT_WELD_RADIUS =
      some ⟨(2000, 0, 0), ⟨1/5, 0, 0⟩, 1/25⟩ := by
    norm_num [weldFindCandidate, engB, meshNear, flagsDefault, buildVertexGroups,
      mapPush, keyForPos, jsRound, GROUP_EPS, selectionCentroid,
      getUniqueSelectedIndices, jsSetAdd, weldScan, Vec3.distSq, Vec3.sub,
      Vec3.lengthSq, Vec3.add, Vec3.zero, Vec3.smul, DEFAULT_WELD_RADIUS, List.enum,
      meshA]
  exact ((c6_weld_search_characterization engB meshNear).2.1 _ h1).2.2

/-! ## Claim C8: the accumulator across cancelToBaseline -/

/-- C8 (evaluation of the code at the failing input): after an uncommitted
drag of (1,0,0) on the selected group of meshA, cancelToBaseline restores
the whole position buffer to the baseline — nothing is uncommitted any
more — yet the accumulated local delta is still (1,0,0), not zero: the
source's cancelToBaseline never touches _accumulatedLocalDelta (it only
writes the mesh, which is visible in the embedding's type).  A subsequent
commit even emits a spurious action carrying the cancelled delta.  This
contradicts the claimed invariant that AccumulatedDelta is zero exactly
when there is nothing uncommitted. -/
theorem c8_cancel_keeps_accumulator :
    (cancelToBaseline (applySelectionWorldDelta engB meshA ⟨1,0,0⟩).1
        (applySelectionWorldDelta engB meshA ⟨1,0,0⟩).2).positions = meshA.positions ∧
    (applySelectionWorldDelta engB meshA ⟨1,0,0⟩).1.accDelta = ⟨1,0,0⟩ ∧
    (commitSelectionDeltaAsAction (applySelectionWorldDelta engB meshA ⟨1,0,0⟩).1 1).1 =
      some ⟨1, [0,1], ⟨1,0,0⟩⟩ := by
  have hloc : worldDeltaToLocalDelta meshA ⟨1,0,0⟩ = ⟨1,0,0⟩ := by
    norm_num [worldDeltaToLocalDelta, meshA, mat4Id, Mat4.invert, Mat4.det, det3x3,
      Mat3.setFromMatrix4, applyMatrix3, Mat4.zero]
  have happ := applySelectionWorldDelta_of_nonempty engB meshA ⟨1,0,0⟩ (by simp [engB])
  rw [happ, hloc]
  refine ⟨?_, ?_, ?_⟩
  · norm_num [cancelToBaseline, engB, meshA]
  · norm_num [engB, Vec3.add, Vec3.zero]
  · norm_num [commitSelectionDeltaAsAction, engB, hasSelection, Vec3.add, Vec3.zero,
      Vec3.lengthSq, COMMIT_EPS_SQ, getUniqueSelectedIndices, jsSetAdd]

end Coolapp
